import Mathlib

/-!
Verification of the intent-detection and conversation-orchestration engine of a
personal-assistant backend.  The definitions below are a shallow embedding of
`backend/app/services/conversation_service.py`, `backend/app/models/conversation.py`,
`backend/app/models/response.py` and the keyword/category tables of
`weather_service.py`, `news_service.py`, `calendar_service.py`.

Modelling conventions:
* Python strings are Lean `String`s (lists of characters); `str.lower` is an
  ASCII character map, matching Python on the ASCII inputs the engine handles.
* Python's substring test `needle in haystack` is the decidable `containsS`.
* The three `re` patterns used by the extractors are embedded by direct
  backtracking matchers specialised to their shapes (leftmost search, greedy
  `\s+`/`\d{1,2}`/`\s*`, lazy group, ordered alternation, word boundaries).
* `datetime` values are abstract `Nat` timestamps; `uuid4` ids and the
  `random.choice` index are explicit parameters of the functions that use them.
* Python floats are modelled as exact rationals `ℚ`; every number the engine
  produces is a small dyadic/decimal fraction, where this is faithful.
* Python's insertion-ordered `dict` is an association list; `sorted` (a stable
  sort) is Mathlib's stable `List.insertionSort`.
-/

/-- The single-quote character, kept out of string literals. -/
def apoC : Char := Char.ofNat 39

/-- The single-quote as a one-character string. -/
def sqS : String := String.singleton apoC

/-- ASCII lower-casing of one character, as Python `str.lower` does on ASCII. -/
def pyLowerChar (c : Char) : Char :=
  if 'A' ≤ c ∧ c ≤ 'Z' then Char.ofNat (c.toNat + 32) else c

/-- Python `str.lower` (ASCII fragment). -/
def pyLower (s : String) : String := ⟨s.data.map pyLowerChar⟩

/-- Python `\s` (ASCII fragment): the whitespace class used by `str.strip` too. -/
def pySpace (c : Char) : Bool :=
  c == ' ' || c == '\t' || c == '\n' || c == '\r' || c == '\x0b' || c == '\x0c'

/-- `startsL n l` holds when `n` is an initial segment of `l`. -/
def startsL : List Char → List Char → Bool
  | [], _ => true
  | _ :: _, [] => false
  | a :: as, b :: bs => a == b && startsL as bs

/-- `containsL n l` is Python's substring test `n in l`. -/
def containsL (n : List Char) : List Char → Bool
  | [] => n.isEmpty
  | c :: t => startsL n (c :: t) || containsL n t

/-- Python `needle in haystack` on strings. -/
def containsS (needle s : String) : Bool := containsL needle.data s.data

/-- Python `str.strip()` on a character list. -/
def pyStrip (l : List Char) : List Char :=
  ((l.dropWhile pySpace).reverse.dropWhile pySpace).reverse

/- ---------------------------------------------------------------------- -/
/- Lexicons (weather_service.py 307-318, news_service.py 345-383,
   calendar_service.py 524-535, conversation_service.py 29-38).            -/
/- ---------------------------------------------------------------------- -/

/-- `WeatherService.get_weather_intent_keywords`. -/
def weather_intent_keywords : List String :=
  ["weather", "temperature", "temp", "forecast", "rain", "snow", "sunny",
   "cloudy", "humidity", "wind", "storm", "hot", "cold", "warm", "cool",
   "degrees", "celsius", "fahrenheit", "precipitation", "climate"]

/-- `NewsService.get_news_intent_keywords`. -/
def news_intent_keywords : List String :=
  ["news", "headlines", "latest", "breaking", "article", "report", "story",
   "what" ++ sqS ++ "s happening", "current events", "today" ++ sqS ++ "s news",
   "updates"]

/-- `CalendarService.get_calendar_intent_keywords`. -/
def calendar_intent_keywords : List String :=
  ["calendar", "schedule", "meeting", "appointment", "event", "remind",
   "book", "plan", "agenda", "today", "tomorrow", "next week", "upcoming",
   "create event", "add to calendar", "what" ++ sqS ++ "s on my calendar"]

/-- The greeting lexicon from `ConversationService.__init__`. -/
def greeting_keywords : List String :=
  ["hello", "hi", "hey", "good morning", "good afternoon", "good evening"]

/-- The goodbye lexicon from `ConversationService.__init__`. -/
def goodbye_keywords : List String :=
  ["bye", "goodbye", "see you", "farewell", "exit", "quit"]

/-- The help lexicon from `ConversationService.__init__`. -/
def help_keywords : List String :=
  ["help", "what can you do", "commands", "assistance", "support"]

/-- The thanks lexicon from `ConversationService.__init__`. -/
def thanks_keywords : List String :=
  ["thank you", "thanks", "appreciate", "grateful"]

/-- `self.intent_keywords`: the per-intent lexicon table, in the Python dict's
insertion order ("general" deliberately has no entry). -/
def intent_keywords : List (String × List String) :=
  [("weather", weather_intent_keywords),
   ("news", news_intent_keywords),
   ("calendar", calendar_intent_keywords),
   ("greeting", greeting_keywords),
   ("goodbye", goodbye_keywords),
   ("help", help_keywords),
   ("thanks", thanks_keywords)]

/-- `NewsService.detect_news_category`: its category keyword table, in dict
insertion order. -/
def category_keywords : List (String × List String) :=
  [("business", ["business", "economy", "finance", "stock", "market", "trade", "company"]),
   ("entertainment", ["entertainment", "celebrity", "movie", "music", "tv", "show", "actor"]),
   ("health", ["health", "medical", "doctor", "hospital", "medicine", "disease", "virus"]),
   ("science", ["science", "research", "study", "discovery", "space", "technology", "innovation"]),
   ("sports", ["sports", "football", "basketball", "soccer", "baseball", "game", "team"]),
   ("technology", ["technology", "tech", "computer", "software", "app", "digital", "ai",
                   "artificial intelligence"])]

/-- `NewsService.detect_news_category`: first category whose keyword list has a
substring hit in the lower-cased query. -/
def detect_news_category (query : String) : Option String :=
  let ql := pyLower query
  (category_keywords.find? (fun p => p.2.any (fun kw => containsS kw ql))).map (fun p => p.1)

/- ---------------------------------------------------------------------- -/
/- Backtracking matchers for the three regex shapes of the extractor.      -/
/- ---------------------------------------------------------------------- -/

/-- Does the terminator `(?:\s|$|...)` of a lazy group fire here?  `isTerm`
describes the one-character alternatives; the empty list is `$`. -/
def termHit (isTerm : Char → Bool) : List Char → Bool
  | [] => true
  | d :: _ => isTerm d

/-- The lazy group `([cls]+?)` followed by `(?:isTerm|$)`: consume characters
of the class one at a time, stopping at the first position where the
terminator fires (shortest match first, as a lazy quantifier does). -/
def lgGen (cls isTerm : Char → Bool) : List Char → Option (List Char)
  | [] => none
  | c :: rest =>
    if cls c then
      if termHit isTerm rest then some [c]
      else
        match lgGen cls isTerm rest with
        | some g => some (c :: g)
        | none => none
    else none

/-- Backtracking of the greedy `\s+` before the lazy group: try consuming `j`
leading whitespace characters, from the maximal `j` downwards (at least 1). -/
def tryDropSpaces (cls isTerm : Char → Bool) (r : List Char) : Nat → Option (List Char)
  | 0 => none
  | j + 1 =>
    match lgGen cls isTerm (r.drop (j + 1)) with
    | some g => some g
    | none => tryDropSpaces cls isTerm r j

/-- Try the whole pattern `cue\s+([cls]+?)(?:isTerm|$)` anchored at the head of
`s`; the cue (given lower-cased) is compared case-insensitively, the group
keeps the original characters. -/
def cueAt (cls isTerm : Char → Bool) (cue : List Char) (s : List Char) : Option (List Char) :=
  if startsL cue (s.map pyLowerChar) then
    let r := s.drop cue.length
    let k := (r.takeWhile pySpace).length
    if k = 0 then none else tryDropSpaces cls isTerm r k
  else none

/-- `re.search` of the pattern: leftmost starting position that matches wins. -/
def searchCue (cls isTerm : Char → Bool) (cue : List Char) : List Char → Option (List Char)
  | [] => none
  | c :: rest =>
    match cueAt cls isTerm cue (c :: rest) with
    | some g => some g
    | none => searchCue cls isTerm cue rest

/-- The character class `[A-Za-z\s,]` of the location patterns. -/
def locClass (c : Char) : Bool := c.isAlpha || pySpace c || c == ','

/-- The terminator alternatives `[?.!]` or `\s` of the location patterns. -/
def locTerm (c : Char) : Bool := pySpace c || c == '?' || c == '.' || c == '!'

/-- The blacklist of `ConversationService._extract_location`. -/
def locBlacklist : List String := ["today", "tomorrow", "now", "there", "here"]

/-- The pattern loop of `_extract_location`: try each cue in order; a match
whose stripped text lower-cases into the blacklist falls through to the next
pattern. -/
def locGo (message : List Char) : List String → Option String
  | [] => none
  | cue :: rest =>
    match searchCue locClass locTerm cue.data message with
    | some g =>
      let location := String.mk (pyStrip g)
      if locBlacklist.contains (pyLower location) then locGo message rest
      else some location
    | none => locGo message rest

/-- `ConversationService._extract_location` (lines 231-257). -/
def extract_location (message : String) : Option String :=
  locGo message.data ["in", "for", "at", "weather"]

/-- The class of `.` in the news-terms patterns: anything but a newline. -/
def dotClass (c : Char) : Bool := c != '\n'

/-- Python `\w` (ASCII fragment), for the word boundaries of the filler sub. -/
def isWordChar (c : Char) : Bool := c.isAlphanum || c == '_'

/-- The filler alternation `(news|latest|today|yesterday)` of
`_extract_news_terms`, in pattern order. -/
def fillers : List String := ["news", "latest", "today", "yesterday"]

/-- Word boundary `\b` before a filler (all fillers start with a word char). -/
def boundaryBefore : Option Char → Bool
  | none => true
  | some p => !(isWordChar p)

/-- Word boundary `\b` after a filler (all fillers end with a word char). -/
def boundaryAfterAt : List Char → Bool
  | [] => true
  | d :: _ => !(isWordChar d)

/-- Try the pattern `\b(news|latest|today|yesterday)\b` (case-insensitively)
anchored at the head of `s`, given the previous original character; returns
the matched length. -/
def tryFiller (prev : Option Char) (s : List Char) : Option Nat :=
  (fillers.find? (fun w =>
      startsL w.data (s.map pyLowerChar) &&
      boundaryBefore prev &&
      boundaryAfterAt (s.drop w.data.length))).map (fun w => w.data.length)

/-- The scan of `re.sub`: replace every non-overlapping filler match with the
empty string, resuming after each match.  (`max 1` only witnesses to the
termination checker that a match is nonempty; every filler has length ≥ 4.) -/
def subGo (prev : Option Char) (s : List Char) : List Char :=
  match s with
  | [] => []
  | c :: rest =>
    match tryFiller prev (c :: rest) with
    | some n =>
      let n' := max 1 n
      subGo ((c :: rest).take n').getLast? ((c :: rest).drop n')
    | none => c :: subGo (some c) rest
  termination_by s.length
  decreasing_by
  · simp only [List.length_drop, List.length_cons]
    omega
  · simp only [List.length_cons]
    omega

/-- `re.sub` of the filler pattern with the empty replacement. -/
def subFillers (l : List Char) : List Char := subGo none l

/-- The pattern loop of `_extract_news_terms`: group text is stripped, fillers
removed, stripped again; an empty result falls through to the next pattern. -/
def newsGo (message : List Char) : List String → Option String
  | [] => none
  | cue :: rest =>
    match searchCue dotClass pySpace cue.data message with
    | some g =>
      let terms := pyStrip g
      let terms2 := pyStrip (subFillers terms)
      if terms2.isEmpty then newsGo message rest else some (String.mk terms2)
    | none => newsGo message rest

/-- `ConversationService._extract_news_terms` (lines 259-287). -/
def extract_news_terms (message : String) : Option String :=
  newsGo message.data ["about", "on", "regarding", "news"]

/-- Tail of the time pattern after the hour digits: `:(\d{2})\s*(am|pm)?`,
returning the whole matched text (`group(0)`), trailing greedy `\s*` kept. -/
def timeTail (hd : List Char) : List Char → Option (List Char)
  | ':' :: m1 :: m2 :: rest =>
    if m1.isDigit && m2.isDigit then
      let sp := rest.takeWhile pySpace
      let rest2 := rest.drop sp.length
      let ap : List Char :=
        match rest2 with
        | x :: y :: _ => if (x == 'a' || x == 'p') && y == 'm' then [x, y] else []
        | _ => []
      some (hd ++ ':' :: m1 :: m2 :: (sp ++ ap))
    else none
  | _ => none

/-- The time pattern `(\d{1,2}):(\d{2})\s*(am|pm)?` anchored here: the greedy
`\d{1,2}` prefers two digits, backtracking to one. -/
def timeAt (s : List Char) : Option (List Char) :=
  match s with
  | [] => none
  | a :: rest =>
    if a.isDigit then
      match rest with
      | b :: rest2 =>
        if b.isDigit then
          match timeTail [a, b] rest2 with
          | some m => some m
          | none => timeTail [a] rest
        else timeTail [a] rest
      | [] => timeTail [a] []
    else none

/-- `re.search` of the time pattern (leftmost match). -/
def timeSearch : List Char → Option (List Char)
  | [] => none
  | c :: rest =>
    match timeAt (c :: rest) with
    | some m => some m
    | none => timeSearch rest

/-- `ConversationService._extract_time_entities` (lines 289-318): the entity
dict in its Python insertion order. -/
def extract_time_entities (message : String) : List (String × String) :=
  let ml := pyLower message
  (if containsS "today" ml then [("date_reference", "today")]
   else if containsS "tomorrow" ml then [("date_reference", "tomorrow")]
   else if containsS "next week" ml then [("date_reference", "next_week")]
   else if containsS "this week" ml then [("date_reference", "this_week")]
   else []) ++
  (match timeSearch (pyLower message).data with
   | some m => [("time", String.mk m)]
   | none => [])

/- ---------------------------------------------------------------------- -/
/- Data model (models/conversation.py, models/response.py).                -/
/- ---------------------------------------------------------------------- -/

/-- `models.Message` (uuid id and free-form metadata values elided; the
timestamp is an abstract `Nat`). -/
structure Msg where
  content : String
  timestamp : Nat
  is_user : Bool
  message_type : String
  metadata : List (String × String)
deriving DecidableEq, Repr

/-- A conversation context value: `last_intent` stores a string,
`last_message_time` a timestamp. -/
inductive CtxVal where
  | s (v : String)
  | t (v : Nat)
deriving DecidableEq, Repr

/-- `models.Conversation` (uuid id is an abstract string; times are `Nat`). -/
structure Conversation where
  id : String
  messages : List Msg
  created_at : Nat
  updated_at : Nat
  context : List (String × CtxVal)
  user_preferences : List (String × String)
deriving DecidableEq, Repr

/-- `Conversation.add_message` (conversation.py 30-55): append, stamp
`updated_at`, and keep only the last 50 messages. -/
def Conversation.add_message (c : Conversation) (content : String) (is_user : Bool)
    (message_type : String) (metadata : List (String × String)) (now : Nat) : Conversation :=
  let message : Msg := ⟨content, now, is_user, message_type, metadata⟩
  let msgs := c.messages ++ [message]
  { c with
    messages := if msgs.length > 50 then msgs.drop (msgs.length - 50) else msgs
    updated_at := now }

/-- `Conversation.update_context` (conversation.py 69-78). -/
def Conversation.update_context (c : Conversation) (key : String) (v : CtxVal)
    (now : Nat) : Conversation :=
  let ctx := if (c.context.lookup key).isSome
    then c.context.map (fun p => if p.1 == key then (key, v) else p)
    else c.context ++ [(key, v)]
  { c with context := ctx, updated_at := now }

/-- `models.UserIntent` (floats as `ℚ`; the entities dict maps to strings, the
parameters dict holds the matched-keyword list). -/
structure UserIntent where
  intent : String
  confidence : ℚ
  entities : List (String × String)
  parameters : List (String × List String)
deriving DecidableEq, Repr

/-- `models.ChatResponse` (response metadata/timestamp elided: the engine
never sets them). -/
structure ChatResponse where
  message : String
  response_type : String
  confidence : ℚ
  actions_taken : List String
  suggestions : List String
deriving DecidableEq, Repr

/-- A value in the envelope metadata dict: a string or a confidence. -/
inductive MetaVal where
  | s (v : String)
  | q (v : ℚ)
deriving DecidableEq, Repr

/-- `models.APIResponse` (timestamp elided). -/
structure APIResponse where
  success : Bool
  data : Option ChatResponse
  error : Option String
  metadata : List (String × MetaVal)
deriving DecidableEq, Repr

/- ---------------------------------------------------------------------- -/
/- Entity extraction and intent detection (conversation_service.py).       -/
/- ---------------------------------------------------------------------- -/

/-- `ConversationService._extract_entities` (lines 178-229); the conversation
argument is passed but never consulted, exactly as in the source. -/
def extract_entities (message : String) (intent : String) (_conversation : Conversation) :
    List (String × String) :=
  let ml := pyLower message
  if intent = "weather" then
    (match extract_location message with
     | some location => if location ≠ "" then [("location", location)] else []
     | none => []) ++
    [("time_reference",
      if ["tomorrow", "today", "forecast", "week"].any (fun w => containsS w ml)
      then "forecast" else "current")]
  else if intent = "news" then
    (match detect_news_category message with
     | some category => [("category", category)]
     | none => []) ++
    (match extract_news_terms message with
     | some terms => if terms ≠ "" then [("search_terms", terms)] else []
     | none => [])
  else if intent = "calendar" then
    [("action",
      if ["schedule", "create", "add", "book"].any (fun w => containsS w ml) then "create"
      else if ["list", "show", "what" ++ sqS ++ "s", "upcoming"].any (fun w => containsS w ml)
      then "list"
      else "list")] ++
    extract_time_entities message
  else []

/-- Python float division `a / b` on the nonnegative score counts, as an exact
rational.  `mkRat` is used because it kernel-reduces (Batteries marks
`Rat.inv`, hence `ℚ` division, `@[irreducible]`); `pyDiv_eq_div` below states
that it is exactly the field division of `ℚ`. -/
def pyDiv (a b : Nat) : ℚ := mkRat a b

/-- Python's builtin `min` on two floats, as the conditional it denotes;
`pyMin_eq_min` below states it is Mathlib's `min`. -/
def pyMin (a b : ℚ) : ℚ := if a ≤ b then a else b

/-- Doubling of a rational, kernel-reducibly (Batteries marks `Rat.mul`
`@[irreducible]`); `pyDouble_eq` below states it is multiplication by 2. -/
def pyDouble (a : ℚ) : ℚ := Rat.divInt (a.num * 2) a.den

/-- One entry of the `intent_scores` dict of `_detect_intent`: intent name,
normalised score, matched keywords. -/
structure IntentScore where
  name : String
  score : ℚ
  keywords : List String
deriving DecidableEq, Repr

/-- The `intent_scores` dict of `_detect_intent` (lines 135-153): one entry
per intent with at least one keyword hit, in lexicon-table order. -/
def intentScores (message : String) : List IntentScore :=
  let ml := pyLower message
  intent_keywords.filterMap (fun p =>
    let matched := p.2.filter (fun kw => containsS kw ml)
    if matched.length > 0 then
      some ⟨p.1, pyDiv matched.length p.2.length, matched⟩
    else none)

/-- Python's `max(keys, key=score)`: the first entry attaining the maximum
score (a later entry replaces the best only when strictly greater). -/
def pickMax (e : IntentScore) (es : List IntentScore) : IntentScore :=
  es.foldl (fun acc x => if acc.score < x.score then x else acc) e

/-- `ConversationService._detect_intent` (lines 121-176). -/
def detect_intent (message : String) (conversation : Conversation) : UserIntent :=
  match intentScores message with
  | [] => ⟨"general", mkRat 1 2, [], []⟩
  | e :: es =>
    let primary := pickMax e es
    let entities := extract_entities message primary.name conversation
    ⟨primary.name, pyMin (pyDouble primary.score) 1, entities,
     [("matched_keywords", primary.keywords)]⟩


/- ---------------------------------------------------------------------- -/
/- Conversation store (conversation_service.py 90-119) and dispatcher.     -/
/- ---------------------------------------------------------------------- -/

/-- Python dict assignment `d[k] = v` on an insertion-ordered dict: update in
place when the key exists, append otherwise. -/
def dictInsert (d : List (String × Conversation)) (k : String) (v : Conversation) :
    List (String × Conversation) :=
  if (d.lookup k).isSome then d.map (fun p => if p.1 == k then (k, v) else p)
  else d ++ [(k, v)]

/-- The sort key of the eviction: `lambda x: x[1].updated_at`. -/
def leUpd (a b : String × Conversation) : Prop :=
  a.2.updated_at ≤ b.2.updated_at

instance : DecidableRel leUpd := fun a b => Nat.decLe a.2.updated_at b.2.updated_at

instance : IsTotal (String × Conversation) leUpd :=
  ⟨fun a b => Nat.le_total a.2.updated_at b.2.updated_at⟩

instance : IsTrans (String × Conversation) leUpd :=
  ⟨fun _ _ _ => Nat.le_trans⟩

/-- `ConversationService._get_or_create_conversation` (lines 90-119).  The
store is the service's insertion-ordered `conversations` dict; `freshId` and
`now` stand for `uuid4()` and `datetime.now()`.  Python's stable `sorted` is
Mathlib's stable `List.insertionSort`; `[:-10]` is `take (length - 10)`, and
the `del` loop filters the doomed keys out, preserving the order of the rest.
An empty-string `conversation_id` is falsy in Python, hence creates. -/
def get_or_create_conversation (convs : List (String × Conversation))
    (cid : Option String) (prefs : List (String × String)) (freshId : String) (now : Nat) :
    Conversation × List (String × Conversation) :=
  let existing : Option Conversation :=
    match cid with
    | some i => if i = "" then none else convs.lookup i
    | none => none
  match existing with
  | some c => (c, convs)
  | none =>
    let conversation : Conversation := ⟨freshId, [], now, now, [], prefs⟩
    let convs1 := dictInsert convs freshId conversation
    let convs2 :=
      if convs1.length > 10 then
        let oldest := (List.insertionSort leUpd convs1).take (convs1.length - 10)
        convs1.filter (fun p => !(oldest.any (fun q => q.1 == p.1)))
      else convs1
    (conversation, convs2)

/-- A collaborator result: the `APIResponse` the weather/news/calendar
services return, with the payload opaque to the core (a display-ready datum
fed only to the matching formatter). -/
structure SvcResult where
  success : Bool
  data : String
  error : String
deriving DecidableEq, Repr

/-- The external collaborators the dispatcher calls (§6 of the design): the
weather, news and calendar services with their formatters, abstracted as
oracles. -/
structure Collaborators where
  get_current_weather : String → SvcResult
  get_weather_forecast : String → SvcResult
  format_weather_message : String → String
  search_news : String → SvcResult
  get_top_headlines : Option String → SvcResult
  format_news_message : String → String
  list_events : SvcResult
  format_calendar_message : String → String

/-- The ambient non-determinism of one `process_message` call: the fresh
conversation uuid, the clock, the local hour used by the greeting handler and
the index used for `random.choice`. -/
structure Env where
  freshId : String
  now : Nat
  hour : Nat
  choice : Nat

/-- Python's `dict.get(k, d)` on a string-valued entities map. -/
def lookupD (l : List (String × String)) (k d : String) : String :=
  (l.lookup k).getD d

/-- Python truthiness of an optional string (`None` and `""` are falsy). -/
def optTruthy (o : Option String) : Bool := (o.getD "") != ""

/-- The collaborator call `_handle_weather_intent` makes (lines 353-359):
forecast when `time_reference` is "forecast", else current weather. -/
def weatherCallResult (collab : Collaborators) (i : UserIntent) : SvcResult :=
  let location := lookupD i.entities "location" "current location"
  let time_ref := lookupD i.entities "time_reference" "current"
  if time_ref = "forecast" then collab.get_weather_forecast location
  else collab.get_current_weather location

/-- `ConversationService._handle_weather_intent` (lines 350-374). -/
def handle_weather_intent (collab : Collaborators) (i : UserIntent) : ChatResponse :=
  let location := lookupD i.entities "location" "current location"
  let result := weatherCallResult collab i
  if result.success then
    ⟨collab.format_weather_message result.data, "weather", i.confidence,
     ["Retrieved weather for " ++ location], []⟩
  else
    ⟨"Sorry, I couldn" ++ sqS ++ "t get weather information. " ++ result.error,
     "error", i.confidence, [], []⟩

/-- The collaborator call `_handle_news_intent` makes (lines 379-385):
search when truthy search terms were extracted, else top headlines. -/
def newsCallResult (collab : Collaborators) (i : UserIntent) : SvcResult :=
  let search_terms := i.entities.lookup "search_terms"
  if optTruthy search_terms then collab.search_news (search_terms.getD "")
  else collab.get_top_headlines (i.entities.lookup "category")

/-- `ConversationService._handle_news_intent` (lines 376-404). -/
def handle_news_intent (collab : Collaborators) (i : UserIntent) : ChatResponse :=
  let category := i.entities.lookup "category"
  let search_terms := i.entities.lookup "search_terms"
  let result := newsCallResult collab i
  if result.success then
    let action :=
      if optTruthy search_terms then
        "Searched news for " ++ sqS ++ (search_terms.getD "") ++ sqS
      else
        "Retrieved " ++ (if optTruthy category then category.getD "" else "general") ++ " news"
    ⟨collab.format_news_message result.data, "news", i.confidence, [action], []⟩
  else
    ⟨"Sorry, I couldn" ++ sqS ++ "t get news information. " ++ result.error,
     "error", i.confidence, [], []⟩

/-- `ConversationService._handle_calendar_intent` (lines 406-435): the
"create" action returns fixed guidance without calling the collaborator. -/
def handle_calendar_intent (collab : Collaborators) (i : UserIntent) : ChatResponse :=
  let action := lookupD i.entities "action" "list"
  if action = "list" then
    let result := collab.list_events
    if result.success then
      ⟨collab.format_calendar_message result.data, "calendar", i.confidence,
       ["Retrieved calendar events"], []⟩
    else
      ⟨"Sorry, I couldn" ++ sqS ++ "t access your calendar. " ++ result.error,
       "error", i.confidence, [], []⟩
  else
    ⟨"I can help you view your calendar events. To create events, please use specific commands like "
       ++ sqS ++ "Schedule a meeting tomorrow at 2 PM" ++ sqS ++ ".",
     "calendar", i.confidence, [],
     ["What" ++ sqS ++ "s on my calendar today?", "Show upcoming events"]⟩

/-- `ConversationService._handle_greeting_intent` (lines 437-465): the
greeting varies with the local hour. -/
def handle_greeting_intent (env : Env) (i : UserIntent) : ChatResponse :=
  let greeting :=
    if env.hour < 12 then "Good morning! How can I assist you today?"
    else if env.hour < 17 then "Good afternoon! What can I help you with?"
    else "Good evening! How may I be of service?"
  ⟨greeting, "greeting", i.confidence, [],
   ["What" ++ sqS ++ "s the weather like?",
    "Show me the latest news",
    "What" ++ sqS ++ "s on my calendar today?",
    "What can you do?"]⟩

/-- The farewell candidates of `_handle_goodbye_intent`. -/
def farewells : List String :=
  ["Goodbye! Have a great day!",
   "See you later! Feel free to ask me anything anytime.",
   "Farewell! I" ++ sqS ++ "m always here when you need assistance."]

/-- `ConversationService._handle_goodbye_intent` (lines 467-483);
`random.choice` is modelled by the environment's choice index. -/
def handle_goodbye_intent (env : Env) (i : UserIntent) : ChatResponse :=
  ⟨farewells.getD (env.choice % 3) "", "goodbye", i.confidence, [], []⟩

def help_message : String :=
  "🤖 **Personal AI Assistant - Help**\n\nI can help you with:\n\n🌤️ **Weather**: \n   • \"What" ++ sqS ++ "s the weather in New York?\"\n   • \"Will it rain today?\"\n   • \"Weather forecast for this week\"\n\n📰 **News**: \n   • \"Show me the latest news\"\n   • \"Technology news\"\n   • \"News about climate change\"\n\n📅 **Calendar**: \n   • \"What" ++ sqS ++ "s on my calendar today?\"\n   • \"Show upcoming events\"\n   • \"Schedule a meeting\" (basic support)\n\n🎤 **Voice Commands**: \n   • Click the microphone button to speak\n   • I can respond with voice too!\n\nJust ask me naturally - I understand conversational language!"

/-- `ConversationService._handle_help_intent` (lines 485-522). -/
def handle_help_intent (i : UserIntent) : ChatResponse :=
  ⟨help_message, "help", i.confidence, [],
   ["Weather in London", "Latest tech news", "My calendar today"]⟩

/-- The response candidates of `_handle_thanks_intent`. -/
def thanks_responses : List String :=
  ["You" ++ sqS ++ "re welcome! Happy to help!",
   "My pleasure! Is there anything else you need?",
   "Glad I could help! Feel free to ask me anything else."]

/-- `ConversationService._handle_thanks_intent` (lines 524-545). -/
def handle_thanks_intent (env : Env) (i : UserIntent) : ChatResponse :=
  ⟨thanks_responses.getD (env.choice % 3) "", "thanks", i.confidence, [],
   ["What else can you do?", "Show me the weather", "Latest news please"]⟩

/-- The response candidates of `_handle_general_intent`. -/
def general_responses : List String :=
  ["I understand you" ++ sqS ++ "re trying to communicate with me, but I" ++ sqS
     ++ "m not sure exactly what you need. Could you be more specific?",
   "I" ++ sqS ++ "m here to help with weather, news, and calendar information. What would you like to know?",
   "I didn" ++ sqS ++ "t quite understand that. You can ask me about the weather, latest news, or your calendar events."]

/-- `ConversationService._handle_general_intent` (lines 547-569): note the
fixed confidence 0.3, independent of the classified confidence. -/
def handle_general_intent (env : Env) (_i : UserIntent) : ChatResponse :=
  ⟨general_responses.getD (env.choice % 3) "", "general", mkRat 3 10, [],
   ["Help - show me what you can do",
    "What" ++ sqS ++ "s the weather like?",
    "Show me today" ++ sqS ++ "s news",
    "What" ++ sqS ++ "s on my calendar?"]⟩

/-- `ConversationService._handle_intent` (lines 320-348): the routing table,
with "general" (and any unknown name) on the default branch. -/
def handle_intent (collab : Collaborators) (env : Env) (i : UserIntent)
    (_message : String) (_conversation : Conversation) : ChatResponse :=
  if i.intent = "weather" then handle_weather_intent collab i
  else if i.intent = "news" then handle_news_intent collab i
  else if i.intent = "calendar" then handle_calendar_intent collab i
  else if i.intent = "greeting" then handle_greeting_intent env i
  else if i.intent = "goodbye" then handle_goodbye_intent env i
  else if i.intent = "help" then handle_help_intent i
  else if i.intent = "thanks" then handle_thanks_intent env i
  else handle_general_intent env i

/-- `ConversationService.process_message` (lines 40-88).  The body of the
Python `try` block is pure here, so `fault` injects the one thing the
embedding cannot raise: `some e` stands for an exception with text `str(e)`
thrown inside the try block (store corruption, etc.), in which case the
`except` branch (lines 83-88) is translated literally.  Store mutations of an
aborted attempt are not tracked (the claim space only observes the returned
`APIResponse`).  The returned store reflects the in-place mutation of the
conversation held by the service dict. -/
def process_message (collab : Collaborators) (env : Env)
    (convs : List (String × Conversation)) (message : String) (cid : Option String)
    (prefs : List (String × String)) (fault : Option String) :
    APIResponse × List (String × Conversation) :=
  match fault with
  | some e =>
    (⟨false, none, some ("Failed to process message: " ++ e), []⟩, convs)
  | none =>
    let pair := get_or_create_conversation convs cid prefs env.freshId env.now
    let conv1 := (pair.1).add_message message true "text" [] env.now
    let i := detect_intent message conv1
    let response := handle_intent collab env i message conv1
    let conv2 := conv1.add_message response.message false "text" [] env.now
    let conv3 := conv2.update_context "last_intent" (CtxVal.s i.intent) env.now
    let conv4 := conv3.update_context "last_message_time" (CtxVal.t env.now) env.now
    let convs2 := dictInsert pair.2 conv4.id conv4
    (⟨true, some response, none,
      [("conversation_id", MetaVal.s conv4.id),
       ("intent", MetaVal.s i.intent),
       ("confidence", MetaVal.q i.confidence)]⟩, convs2)

/- ---------------------------------------------------------------------- -/
/- Specification-side functions and concrete fixtures used by the          -/
/- theorems below.                                                         -/
/- ---------------------------------------------------------------------- -/

/-- The lexicon of an intent name (the spec-side view of the table). -/
def keywordsOf (name : String) : List String :=
  (intent_keywords.lookup name).getD []

/-- The keywords of intent `name` occurring in the lower-cased message. -/
def intentMatched (m name : String) : List String :=
  (keywordsOf name).filter (fun kw => containsS kw (pyLower m))

/-- The spec's score of an intent: matched keyword count divided by the
lexicon size, as true rational division. -/
def intentScore (m name : String) : ℚ :=
  ((intentMatched m name).length : ℚ) / ((keywordsOf name).length : ℚ)

/-- An utterance consisting only of the given words, space-separated. -/
def joinWords : List String → String
  | [] => ""
  | [w] => w
  | w :: rest => w ++ " " ++ joinWords rest

/-- Adjacent character pairs of a character list. -/
def bigrams : List Char → List (Char × Char)
  | [] => []
  | [_] => []
  | c :: d :: rest => (c, d) :: bigrams (d :: rest)

/-- Every adjacent pair that can occur in a space-separated sequence of
greeting keywords: pairs inside a keyword, keyword-final character before a
space, and space before a keyword-initial character. -/
def greetingPairs : List (Char × Char) :=
  (greeting_keywords.map (fun w => bigrams w.data)).flatten ++
  (greeting_keywords.filterMap (fun w => w.data.getLast?.map (fun c => (c, ' ')))) ++
  (greeting_keywords.filterMap (fun w => w.data.head?.map (fun c => (' ', c))))

/-- Every keyword of the six non-greeting lexicons. -/
def foreign_keywords : List String :=
  weather_intent_keywords ++ news_intent_keywords ++ calendar_intent_keywords ++
  goodbye_keywords ++ help_keywords ++ thanks_keywords

/-- A blank conversation, used to instantiate the classifier (which ignores
its conversation argument). -/
def conv0 : Conversation := ⟨"", [], 0, 0, [], []⟩

/-- The first scenario utterance of the spec. -/
def c2msg : String := "What" ++ sqS ++ "s the weather in Paris tomorrow?"

/-- A conversation already holding 50 messages. -/
def c50 : Conversation :=
  ⟨"full", List.replicate 50 ⟨"old", 0, true, "text", []⟩, 0, 0, [], []⟩

/-- A collaborator whose calls all succeed (for fixtures). -/
def trivCollab : Collaborators :=
  ⟨fun _ => ⟨true, "w", ""⟩, fun _ => ⟨true, "f", ""⟩, id,
   fun _ => ⟨true, "s", ""⟩, fun _ => ⟨true, "h", ""⟩, id,
   ⟨true, "c", ""⟩, id⟩

/-- A collaborator whose calls all fail, with distinct error texts. -/
def failCollab : Collaborators :=
  ⟨fun _ => ⟨false, "", "weather api down"⟩, fun _ => ⟨false, "", "forecast api down"⟩, id,
   fun _ => ⟨false, "", "news search down"⟩, fun _ => ⟨false, "", "headlines down"⟩, id,
   ⟨false, "", "calendar api down"⟩, id⟩

/-- A fixed environment for fixtures. -/
def env0 : Env := ⟨"fresh", 5, 9, 0⟩

/-- A store of ten conversations with ids `"c0"`..`"c9"` and strictly
increasing update times `1..10`. -/
def store10 : List (String × Conversation) :=
  [("c0", ⟨"c0", [], 1, 1, [], []⟩), ("c1", ⟨"c1", [], 2, 2, [], []⟩),
   ("c2", ⟨"c2", [], 3, 3, [], []⟩), ("c3", ⟨"c3", [], 4, 4, [], []⟩),
   ("c4", ⟨"c4", [], 5, 5, [], []⟩), ("c5", ⟨"c5", [], 6, 6, [], []⟩),
   ("c6", ⟨"c6", [], 7, 7, [], []⟩), ("c7", ⟨"c7", [], 8, 8, [], []⟩),
   ("c8", ⟨"c8", [], 9, 9, [], []⟩), ("c9", ⟨"c9", [], 10, 10, [], []⟩)]

/- ---------------------------------------------------------------------- -/
/- Theorems.  First the bridging lemmas for the kernel-reducible           -/
/- arithmetic forms.                                                       -/
/- ---------------------------------------------------------------------- -/

theorem pyDiv_eq_div (a b : Nat) : pyDiv a b = (a : ℚ) / (b : ℚ) := by
  rw [pyDiv, Rat.mkRat_eq_div]
  push_cast
  ring

theorem pyMin_eq_min (a b : ℚ) : pyMin a b = min a b := (min_def a b).symm

theorem pyDouble_eq (a : ℚ) : pyDouble a = a * 2 := by
  rw [pyDouble, Rat.divInt_eq_div]
  push_cast
  rw [mul_comm ((a.num : ℚ)) 2, mul_div_assoc, Rat.num_div_den]
  ring

/-- The classifier never reads the conversation it is handed. -/
theorem detect_intent_conv (m : String) (c c' : Conversation) :
    detect_intent m c = detect_intent m c' := rfl

/-- C2: the claim asserts the scenario utterance classifies as "weather" with
location "Paris" and time_reference "forecast"; in fact the calendar lexicon's
"tomorrow" (1/16) outscores weather's single hit "weather" (1/20), so the
classifier returns "calendar" and the claimed result is refuted. -/
theorem c2_counterexample :
    ¬ ((detect_intent c2msg conv0).intent = "weather" ∧
       (detect_intent c2msg conv0).entities.lookup "location" = some "Paris" ∧
       (detect_intent c2msg conv0).entities.lookup "time_reference" = some "forecast") := by
  decide

/-- C2 (amended): for the utterance "What's the weather in Paris tomorrow?",
classify returns intent "calendar" with confidence 1/8, entities
action = "list" and date_reference = "tomorrow", and matched keyword
"tomorrow" (the calendar lexicon's "tomorrow" gives score 1/16, outscoring
weather's 1/20). -/
theorem c2_amended :
    detect_intent c2msg conv0 =
      ⟨"calendar", 1/8, [("action", "list"), ("date_reference", "tomorrow")],
       [("matched_keywords", ["tomorrow"])]⟩ := by
  have h : detect_intent c2msg conv0 =
      ⟨"calendar", mkRat 1 8, [("action", "list"), ("date_reference", "tomorrow")],
       [("matched_keywords", ["tomorrow"])]⟩ := by decide
  rw [h]
  have : (mkRat 1 8 : ℚ) = 1/8 := by
    rw [Rat.mkRat_eq_div]
    norm_num
  rw [this]

/-- C3: the claim asserts "Show me technology news" yields entities mapping
"category" to "technology"; in fact `detect_news_category` hits the
entertainment list first (its keyword "show" occurs), so the category is
"entertainment" and the claimed result is refuted. -/
theorem c3_counterexample :
    ¬ ((detect_intent "Show me technology news" conv0).intent = "news" ∧
       (detect_intent "Show me technology news" conv0).entities.lookup "category"
          = some "technology") := by
  decide

/-- C3 (amended): for the utterance "Show me technology news", classify
returns intent "news" (confidence 2/11, matched keyword "news") whose
entities map "category" to "entertainment": the category detector checks the
entertainment keyword list (containing "show") before the technology one. -/
theorem c3_amended :
    detect_intent "Show me technology news" conv0 =
      ⟨"news", 2/11, [("category", "entertainment")],
       [("matched_keywords", ["news"])]⟩ := by
  have h : detect_intent "Show me technology news" conv0 =
      ⟨"news", mkRat 2 11, [("category", "entertainment")],
       [("matched_keywords", ["news"])]⟩ := by decide
  rw [h]
  have : (mkRat 2 11 : ℚ) = 2/11 := by
    rw [Rat.mkRat_eq_div]
    norm_num
  rw [this]

/-- C7: the claim asserts the failure result's error string never contains
raw exception text; in fact `process_message` interpolates `str(e)` into
`"Failed to process message: {e}"`, so an exception text "boom" appears
verbatim in the error field. -/
theorem c7_counterexample :
    (process_message trivCollab env0 [] "hi" none [] (some "boom")).1.success = false ∧
    ∃ err, (process_message trivCollab env0 [] "hi" none [] (some "boom")).1.error = some err ∧
      containsS "boom" err = true := by
  refine ⟨rfl, "Failed to process message: boom", rfl, by decide⟩

/-- C7 (amended): for every exception raised outside the handler boundary
during process, process returns a failure result (success = false) whose
error field is the fixed prefix "Failed to process message: " followed by the
exception's own text (raw exception text is therefore included), and the
exception does not escape process. -/
theorem c7_amended (collab : Collaborators) (env : Env)
    (convs : List (String × Conversation)) (message : String) (cid : Option String)
    (prefs : List (String × String)) (e : String) :
    process_message collab env convs message cid prefs (some e)
      = (⟨false, none, some ("Failed to process message: " ++ e), []⟩, convs) := rfl

/-- C4: after any `add_message` the message list holds at most 50 messages;
appending to a conversation already holding 50 leaves exactly 50, with the
oldest dropped, the new message last, and the retained order unchanged. -/
theorem c4_message_cap (c : Conversation) (content : String) (is_user : Bool)
    (mt : String) (md : List (String × String)) (now : Nat) :
    (c.add_message content is_user mt md now).messages.length ≤ 50 ∧
    (c.messages.length = 50 →
      (c.add_message content is_user mt md now).messages
          = c.messages.drop 1 ++ [⟨content, now, is_user, mt, md⟩] ∧
      (c.add_message content is_user mt md now).messages.length = 50) := by
  constructor
  · rw [Conversation.add_message]
    simp only
    split
    · rename_i h
      simp only [List.length_drop]
      omega
    · rename_i h
      simp only [List.length_append, List.length_cons] at *
      omega
  · intro h50
    rw [Conversation.add_message]
    simp only
    rw [if_pos (by simp [h50])]
    constructor
    · simp only [List.length_append, List.length_cons, List.length_nil, h50]
      rw [List.drop_append_of_le_length (by omega)]
    · simp [h50]

/-- C4 witness: a concrete conversation with 50 messages. -/
theorem c4_message_cap_witness :
    (c50.add_message "x" true "text" [] 7).messages.length ≤ 50 ∧
    (c50.add_message "x" true "text" [] 7).messages
        = c50.messages.drop 1 ++ [⟨"x", 7, true, "text", []⟩] ∧
    (c50.add_message "x" true "text" [] 7).messages.length = 50 := by
  have h := c4_message_cap c50 "x" true "text" [] 7
  exact ⟨h.1, h.2 (by decide)⟩

/-- A group produced by the lazy matcher starts with its first consumed
character and every later character failed the terminator test (otherwise the
lazy group would have stopped just before it). -/
theorem lg_head (cls isTerm : Char → Bool) (x : Char) (xs g : List Char)
    (h : lgGen cls isTerm (x :: xs) = some g) : ∃ t, g = x :: t := by
  simp only [lgGen] at h
  by_cases hc : cls x
  · rw [if_pos hc] at h
    by_cases ht : termHit isTerm xs
    · rw [if_pos ht] at h
      exact ⟨[], by cases h; rfl⟩
    · rw [if_neg ht] at h
      cases hrec : lgGen cls isTerm xs with
      | none => rw [hrec] at h; simp at h
      | some g' =>
        rw [hrec] at h
        exact ⟨g', by cases h; rfl⟩
  · rw [if_neg hc] at h
    simp at h

/-- Every character of a lazy-matcher group except the first fails the
terminator test. -/
theorem lg_shape (cls isTerm : Char → Bool) :
    ∀ (l g : List Char), lgGen cls isTerm l = some g →
      ∃ c t, g = c :: t ∧ ∀ ch ∈ t, isTerm ch = false := by
  intro l
  induction l with
  | nil => intro g h; simp [lgGen] at h
  | cons c rest ih =>
    intro g h
    simp only [lgGen] at h
    by_cases hc : cls c
    · rw [if_pos hc] at h
      by_cases ht : termHit isTerm rest
      · rw [if_pos ht] at h
        exact ⟨c, [], by cases h; rfl, by simp⟩
      · rw [if_neg ht] at h
        cases hrec : lgGen cls isTerm rest with
        | none => rw [hrec] at h; simp at h
        | some g' =>
          rw [hrec] at h
          cases h
          obtain ⟨c', t', hg', ht'⟩ := ih g' hrec
          refine ⟨c, g', rfl, ?_⟩
          intro ch hch
          cases rest with
          | nil => simp [termHit] at ht
          | cons d rest₂ =>
            have hd : isTerm d = false := by
              simp only [termHit] at ht
              exact Bool.not_eq_true _ ▸ (by simpa using ht)
            obtain ⟨t₂, hg2⟩ := lg_head cls isTerm d rest₂ g' hrec
            subst hg'
            rcases List.mem_cons.mp hch with h1 | h2
            · injection hg2 with h3 h4
              subst h1
              rw [h3]
              exact hd
            · exact ht' ch h2
    · rw [if_neg hc] at h
      simp at h

/-- Dropping a prefix by a predicate no element satisfies is the identity. -/
theorem dropWhile_of_forall (p : Char → Bool) (l : List Char)
    (h : ∀ ch ∈ l, p ch = false) : l.dropWhile p = l := by
  cases l with
  | nil => rfl
  | cons a t =>
    rw [List.dropWhile_cons, if_neg (by simp [h a (List.mem_cons_self a t)])]

/-- Stripping a list whose tail is whitespace-free yields a whitespace-free
list. -/
theorem strip_nospace (c : Char) (t : List Char)
    (ht : ∀ ch ∈ t, pySpace ch = false) :
    ∀ ch ∈ pyStrip (c :: t), pySpace ch = false := by
  rw [pyStrip]
  by_cases hc : pySpace c
  · rw [List.dropWhile_cons, if_pos (by simp [hc]), dropWhile_of_forall pySpace t ht,
      dropWhile_of_forall pySpace t.reverse (by simpa using fun ch h => ht ch h)]
    simpa using ht
  · rw [List.dropWhile_cons, if_neg (by simp [hc])]
    have hall : ∀ ch ∈ (c :: t).reverse, pySpace ch = false := by
      simp only [List.mem_reverse]
      intro ch hch
      rcases List.mem_cons.mp hch with h1 | h2
      · subst h1; simpa using hc
      · exact ht ch h2
    rw [dropWhile_of_forall pySpace (c :: t).reverse hall]
    intro ch hch
    rw [List.reverse_reverse] at hch
    rcases List.mem_cons.mp hch with h1 | h2
    · subst h1; simpa using hc
    · exact ht ch h2

/-- Any group returned by the whitespace backtracking came from the lazy
matcher on some suffix. -/
theorem tryDropSpaces_lg (cls isTerm : Char → Bool) (r : List Char) :
    ∀ (j : Nat) (g : List Char), tryDropSpaces cls isTerm r j = some g →
      ∃ l, lgGen cls isTerm l = some g := by
  intro j
  induction j with
  | zero => intro g h; simp [tryDropSpaces] at h
  | succ j ih =>
    intro g h
    simp only [tryDropSpaces] at h
    cases hrec : lgGen cls isTerm (r.drop (j + 1)) with
    | none => rw [hrec] at h; exact ih g h
    | some g' =>
      rw [hrec] at h
      cases h
      exact ⟨r.drop (j + 1), hrec⟩

/-- Any group returned by the anchored pattern came from the lazy matcher. -/
theorem cueAt_lg (cls isTerm : Char → Bool) (cue s g : List Char)
    (h : cueAt cls isTerm cue s = some g) : ∃ l, lgGen cls isTerm l = some g := by
  simp only [cueAt] at h
  by_cases hs : startsL cue (s.map pyLowerChar)
  · rw [if_pos hs] at h
    by_cases hk : ((s.drop cue.length).takeWhile pySpace).length = 0
    · rw [if_pos hk] at h; simp at h
    · rw [if_neg hk] at h
      exact tryDropSpaces_lg cls isTerm (s.drop cue.length) _ g h
  · rw [if_neg hs] at h
    simp at h

/-- Any group returned by the leftmost search came from the lazy matcher. -/
theorem searchCue_lg (cls isTerm : Char → Bool) (cue : List Char) :
    ∀ (s g : List Char), searchCue cls isTerm cue s = some g →
      ∃ l, lgGen cls isTerm l = some g := by
  intro s
  induction s with
  | nil => intro g h; simp [searchCue] at h
  | cons c rest ih =>
    intro g h
    simp only [searchCue] at h
    cases hat : cueAt cls isTerm cue (c :: rest) with
    | none => rw [hat] at h; exact ih g h
    | some g' =>
      rw [hat] at h
      cases h
      exact cueAt_lg cls isTerm cue (c :: rest) g hat

/-- Any location returned by the pattern loop is a stripped lazy-matcher
group that survived the blacklist test. -/
theorem locGo_shape (msg : List Char) :
    ∀ (cues : List String) (loc : String), locGo msg cues = some loc →
      ∃ g, (∃ l, lgGen locClass locTerm l = some g) ∧
        loc = String.mk (pyStrip g) ∧
        locBlacklist.contains (pyLower loc) = false := by
  intro cues
  induction cues with
  | nil => intro loc h; simp [locGo] at h
  | cons cue rest ih =>
    intro loc h
    simp only [locGo] at h
    cases hsc : searchCue locClass locTerm cue.data msg with
    | none => rw [hsc] at h; exact ih loc h
    | some g =>
      rw [hsc] at h
      dsimp only at h
      by_cases hb : locBlacklist.contains (pyLower (String.mk (pyStrip g)))
      · rw [if_pos hb] at h
        exact ih loc h
      · rw [if_neg hb] at h
        cases h
        exact ⟨g, searchCue_lg locClass locTerm cue.data msg g hsc, rfl,
          by simpa using hb⟩

/-- C8 (amended): the location patterns' lazy group stops at the first
whitespace, sentence-terminating punctuation, or end of string, so an
extracted location never contains whitespace — a multi-word location such as
"New York" in "weather in New York" is cut to its first word "New" — and a
candidate whose lower-casing is one of today/tomorrow/now/there/here is
rejected in favour of the next pattern, so no blacklisted word is ever
returned. -/
theorem c8_amended :
    (∀ (msg : String) (loc : String), extract_location msg = some loc →
        (∀ ch ∈ loc.data, pySpace ch = false) ∧
        locBlacklist.contains (pyLower loc) = false) ∧
    extract_location "weather in New York" = some "New" := by
  constructor
  · intro msg loc h
    rw [extract_location] at h
    obtain ⟨g, ⟨l, hl⟩, hloc, hb⟩ := locGo_shape msg.data _ loc h
    refine ⟨?_, hb⟩
    obtain ⟨c, t, hg, ht⟩ := lg_shape locClass locTerm l g hl
    subst hg
    have ht' : ∀ ch ∈ t, pySpace ch = false := by
      intro ch hch
      by_contra hsp
      simp only [Bool.not_eq_false] at hsp
      have hterm : locTerm ch = true := by simp [locTerm, hsp]
      rw [ht ch hch] at hterm
      exact Bool.false_ne_true hterm
    subst hloc
    intro ch hch
    exact strip_nospace c t ht' ch hch
  · decide

/-- C8: the claim asserts the phrase extends to sentence punctuation or end
of string so that "New York" is captured whole; in fact the terminator
alternation contains `\s` and the group is lazy, so "weather in New York"
yields "New". -/
theorem c8_counterexample :
    extract_location "weather in New York" = some "New" ∧
    ("New" : String) ≠ "New York" := ⟨by decide, by decide⟩

/-- C8 witness: the amended claim applied at "What is the weather in Paris
tomorrow?", whose extracted location is "Paris". -/
theorem c8_amended_witness :
    (∀ ch ∈ ("Paris" : String).data, pySpace ch = false) ∧
    locBlacklist.contains (pyLower "Paris") = false :=
  c8_amended.1 "What is the weather in Paris tomorrow?" "Paris" (by decide)

/-- The entry Python's first-maximum `max` picks is one of the entries. -/
theorem pickMax_mem : ∀ (es : List IntentScore) (e : IntentScore),
    pickMax e es ∈ e :: es := by
  intro es
  induction es with
  | nil => intro e; simp [pickMax]
  | cons x xs ih =>
    intro e
    have hstep : pickMax e (x :: xs) = pickMax (if e.score < x.score then x else e) xs := rfl
    rw [hstep]
    rcases List.mem_cons.mp (ih (if e.score < x.score then x else e)) with h1 | h2
    · rw [h1]
      by_cases hc : e.score < x.score
      · simp [hc]
      · simp [hc]
    · simp [h2]

/-- Every score-dict entry is named after a lexicon-table intent. -/
theorem intentScores_name_mem (m : String) (e : IntentScore)
    (h : e ∈ intentScores m) : e.name ∈ intent_keywords.map Prod.fst := by
  rw [intentScores] at h
  obtain ⟨p, hp, hfp⟩ := List.mem_filterMap.mp h
  dsimp only at hfp
  by_cases hlen : (p.2.filter (fun kw => containsS kw (pyLower m))).length > 0
  · rw [if_pos hlen] at hfp
    cases hfp
    exact List.mem_map.mpr ⟨p, hp, rfl⟩
  · rw [if_neg hlen] at hfp
    simp at hfp

/-- A "general" classification can only be the fallback: general has no
lexicon entry, so the intent is "general" exactly when no keyword matched,
and then the whole result is the fixed fallback. -/
theorem detect_general (m : String) (c : Conversation)
    (h : (detect_intent m c).intent = "general") :
    detect_intent m c = ⟨"general", mkRat 1 2, [], []⟩ := by
  rw [detect_intent] at h ⊢
  cases hs : intentScores m with
  | nil => rfl
  | cons e es =>
    rw [hs] at h
    dsimp only at h
    have hmem := pickMax_mem es e
    rw [← hs] at hmem
    have hname := intentScores_name_mem m (pickMax e es) hmem
    rw [h] at hname
    have : ("general" : String) ∉ intent_keywords.map Prod.fst := by decide
    exact absurd hname this

/-- The success envelope of a fault-free `process_message`, normalised: the
classifier and the handlers never read the conversation they are handed, so
the envelope depends only on the message, the collaborators and the
environment (the conversation id inside the metadata comes from the resolved
conversation). -/
theorem process_envelope (collab : Collaborators) (env : Env)
    (convs : List (String × Conversation)) (message : String) (cid : Option String)
    (prefs : List (String × String)) :
    (process_message collab env convs message cid prefs none).1 =
      ⟨true,
       some (handle_intent collab env (detect_intent message conv0) message conv0),
       none,
       [("conversation_id",
         MetaVal.s (get_or_create_conversation convs cid prefs env.freshId env.now).1.id),
        ("intent", MetaVal.s (detect_intent message conv0).intent),
        ("confidence", MetaVal.q (detect_intent message conv0).confidence)]⟩ := rfl

/-- C10: for every utterance classified "general", the general handler's
ChatResponse carries confidence exactly 0.3 while the success envelope's
metadata carries the classifier's confidence 0.5; the two values differ. -/
theorem c10_general_confidences (collab : Collaborators) (env : Env)
    (convs : List (String × Conversation)) (message : String) (cid : Option String)
    (prefs : List (String × String)) (conv : Conversation)
    (hg : (detect_intent message conv).intent = "general") :
    (process_message collab env convs message cid prefs none).1.success = true ∧
    (∃ resp, (process_message collab env convs message cid prefs none).1.data = some resp ∧
       resp.response_type = "general" ∧ resp.confidence = 3/10) ∧
    (process_message collab env convs message cid prefs none).1.metadata.lookup "confidence"
        = some (MetaVal.q (1/2)) ∧
    (3/10 : ℚ) ≠ 1/2 := by
  have hgen : detect_intent message conv0 = ⟨"general", mkRat 1 2, [], []⟩ :=
    detect_general message conv0 ((detect_intent_conv message conv0 conv) ▸ hg)
  have h310 : (mkRat 3 10 : ℚ) = 3/10 := by rw [Rat.mkRat_eq_div]; norm_num
  have h12 : (mkRat 1 2 : ℚ) = 1/2 := by rw [Rat.mkRat_eq_div]; norm_num
  rw [process_envelope, hgen]
  refine ⟨rfl, ⟨handle_general_intent env ⟨"general", mkRat 1 2, [], []⟩, ?_, rfl, ?_⟩,
    ?_, by norm_num⟩
  · rfl
  · show (mkRat 3 10 : ℚ) = 3/10
    exact h310
  · show some (MetaVal.q (mkRat 1 2)) = some (MetaVal.q (1/2))
    rw [h12]

/-- C10 witness: the utterance "blarg" classifies as "general". -/
theorem c10_general_confidences_witness :
    (process_message trivCollab env0 [] "blarg" none [] none).1.success = true ∧
    (∃ resp, (process_message trivCollab env0 [] "blarg" none [] none).1.data = some resp ∧
       resp.response_type = "general" ∧ resp.confidence = 3/10) ∧
    (process_message trivCollab env0 [] "blarg" none [] none).1.metadata.lookup "confidence"
        = some (MetaVal.q (1/2)) ∧
    (3/10 : ℚ) ≠ 1/2 :=
  c10_general_confidences trivCollab env0 [] "blarg" none [] conv0 (by decide)

/-- C6: whenever the collaborator call made by the weather, news, or calendar
handler returns a failure, `process` still returns a success envelope
(success = true) whose ChatResponse has response_type "error", a message
embedding the collaborator's error text, and confidence equal to the
classified UserIntent's confidence; no exception propagates (the dispatcher
is total and the envelope is always produced). -/
theorem c6_collab_failure (collab : Collaborators) (env : Env)
    (convs : List (String × Conversation)) (message : String) (cid : Option String)
    (prefs : List (String × String)) :
    ((detect_intent message conv0).intent = "weather" →
      (weatherCallResult collab (detect_intent message conv0)).success = false →
      (process_message collab env convs message cid prefs none).1.success = true ∧
      ∃ resp, (process_message collab env convs message cid prefs none).1.data = some resp ∧
        resp.response_type = "error" ∧
        resp.confidence = (detect_intent message conv0).confidence ∧
        resp.message = "Sorry, I couldn" ++ sqS ++ "t get weather information. "
            ++ (weatherCallResult collab (detect_intent message conv0)).error) ∧
    ((detect_intent message conv0).intent = "news" →
      (newsCallResult collab (detect_intent message conv0)).success = false →
      (process_message collab env convs message cid prefs none).1.success = true ∧
      ∃ resp, (process_message collab env convs message cid prefs none).1.data = some resp ∧
        resp.response_type = "error" ∧
        resp.confidence = (detect_intent message conv0).confidence ∧
        resp.message = "Sorry, I couldn" ++ sqS ++ "t get news information. "
            ++ (newsCallResult collab (detect_intent message conv0)).error) ∧
    ((detect_intent message conv0).intent = "calendar" →
      lookupD (detect_intent message conv0).entities "action" "list" = "list" →
      collab.list_events.success = false →
      (process_message collab env convs message cid prefs none).1.success = true ∧
      ∃ resp, (process_message collab env convs message cid prefs none).1.data = some resp ∧
        resp.response_type = "error" ∧
        resp.confidence = (detect_intent message conv0).confidence ∧
        resp.message = "Sorry, I couldn" ++ sqS ++ "t access your calendar. "
            ++ collab.list_events.error) := by
  refine ⟨fun hw hfail => ?_, fun hn hfail => ?_, fun hc hact hfail => ?_⟩
  · have hresp : handle_intent collab env (detect_intent message conv0) message conv0 =
        ⟨"Sorry, I couldn" ++ sqS ++ "t get weather information. "
            ++ (weatherCallResult collab (detect_intent message conv0)).error,
         "error", (detect_intent message conv0).confidence, [], []⟩ := by
      rw [handle_intent, if_pos hw, handle_weather_intent]
      simp [hfail]
    rw [process_envelope]
    exact ⟨rfl, _, rfl, by rw [hresp], by rw [hresp], by rw [hresp]⟩
  · have hresp : handle_intent collab env (detect_intent message conv0) message conv0 =
        ⟨"Sorry, I couldn" ++ sqS ++ "t get news information. "
            ++ (newsCallResult collab (detect_intent message conv0)).error,
         "error", (detect_intent message conv0).confidence, [], []⟩ := by
      rw [handle_intent, if_neg (by rw [hn]; decide), if_pos hn, handle_news_intent]
      simp [hfail]
    rw [process_envelope]
    exact ⟨rfl, _, rfl, by rw [hresp], by rw [hresp], by rw [hresp]⟩
  · have hresp : handle_intent collab env (detect_intent message conv0) message conv0 =
        ⟨"Sorry, I couldn" ++ sqS ++ "t access your calendar. "
            ++ collab.list_events.error,
         "error", (detect_intent message conv0).confidence, [], []⟩ := by
      rw [handle_intent, if_neg (by rw [hc]; decide), if_neg (by rw [hc]; decide),
        if_pos hc, handle_calendar_intent]
      rw [if_pos hact]
      simp [hfail]
    rw [process_envelope]
    exact ⟨rfl, _, rfl, by rw [hresp], by rw [hresp], by rw [hresp]⟩

/-- C6 witness: a failing collaborator with the utterances "weather in
Nowhereland", "news" and "calendar", which classify as the three delegating
intents. -/
theorem c6_collab_failure_witness :
    ((process_message failCollab env0 [] "weather in Nowhereland" none [] none).1.success = true ∧
     ∃ resp, (process_message failCollab env0 [] "weather in Nowhereland" none [] none).1.data
          = some resp ∧
       resp.response_type = "error" ∧
       resp.confidence = (detect_intent "weather in Nowhereland" conv0).confidence ∧
       resp.message = "Sorry, I couldn" ++ sqS ++ "t get weather information. "
           ++ (weatherCallResult failCollab (detect_intent "weather in Nowhereland" conv0)).error) ∧
    ((process_message failCollab env0 [] "news" none [] none).1.success = true ∧
     ∃ resp, (process_message failCollab env0 [] "news" none [] none).1.data = some resp ∧
       resp.response_type = "error" ∧
       resp.confidence = (detect_intent "news" conv0).confidence ∧
       resp.message = "Sorry, I couldn" ++ sqS ++ "t get news information. "
           ++ (newsCallResult failCollab (detect_intent "news" conv0)).error) ∧
    ((process_message failCollab env0 [] "calendar" none [] none).1.success = true ∧
     ∃ resp, (process_message failCollab env0 [] "calendar" none [] none).1.data = some resp ∧
       resp.response_type = "error" ∧
       resp.confidence = (detect_intent "calendar" conv0).confidence ∧
       resp.message = "Sorry, I couldn" ++ sqS ++ "t access your calendar. "
           ++ failCollab.list_events.error) :=
  ⟨(c6_collab_failure failCollab env0 [] "weather in Nowhereland" none []).1
      (by decide) (by decide),
   (c6_collab_failure failCollab env0 [] "news" none []).2.1 (by decide) (by decide),
   (c6_collab_failure failCollab env0 [] "calendar" none []).2.2
      (by decide) (by decide) (by decide)⟩

/-- Python's first-maximum `max`: the picked entry splits the list into a
strictly-smaller prefix (no earlier entry attains the maximum) and carries a
score at least every entry's. -/
theorem pickMax_split : ∀ (es : List IntentScore) (e : IntentScore),
    ∃ A B, e :: es = A ++ pickMax e es :: B ∧
      (∀ x ∈ A, x.score < (pickMax e es).score) ∧
      (∀ x ∈ e :: es, x.score ≤ (pickMax e es).score) := by
  intro es
  induction es with
  | nil =>
    intro e
    refine ⟨[], [], rfl, by simp, ?_⟩
    intro y hy
    rcases List.mem_singleton.mp hy with h1
    subst h1
    exact le_refl _
  | cons x xs ih =>
    intro e
    by_cases hc : e.score < x.score
    · have hpm' : pickMax e (x :: xs) = pickMax x xs := by
        show pickMax (if e.score < x.score then x else e) xs = pickMax x xs
        rw [if_pos hc]
      obtain ⟨A', B', hsplit, hstrict, hle⟩ := ih x
      refine ⟨e :: A', B', ?_, ?_, ?_⟩
      · rw [hpm', List.cons_append, ← hsplit]
      · intro y hy
        rw [hpm']
        rcases List.mem_cons.mp hy with h1 | h2
        · subst h1
          exact lt_of_lt_of_le hc (hle x (List.mem_cons_self x xs))
        · exact hstrict y h2
      · intro y hy
        rw [hpm']
        rcases List.mem_cons.mp hy with h1 | h2
        · subst h1
          exact le_of_lt (lt_of_lt_of_le hc (hle x (List.mem_cons_self x xs)))
        · exact hle y h2
    · have hpm' : pickMax e (x :: xs) = pickMax e xs := by
        show pickMax (if e.score < x.score then x else e) xs = pickMax e xs
        rw [if_neg hc]
      obtain ⟨A', B', hsplit, hstrict, hle⟩ := ih e
      cases A' with
      | nil =>
        simp only [List.nil_append] at hsplit
        have he : pickMax e xs = e := by
          injection hsplit with h1 h2
          exact h1.symm
        have hB : B' = xs := by
          injection hsplit with h1 h2
          exact h2.symm
        refine ⟨[], x :: xs, ?_, by simp, ?_⟩
        · rw [hpm', he, List.nil_append]
        · intro y hy
          rw [hpm', he]
          rcases List.mem_cons.mp hy with h1 | h2
          · subst h1; exact le_refl _
          rcases List.mem_cons.mp h2 with h3 | h4
          · subst h3; exact le_of_not_lt hc
          · have := hle y (List.mem_cons_of_mem e h4)
            rw [he] at this
            exact this
      | cons a A'' =>
        rw [List.cons_append] at hsplit
        injection hsplit with ha hxs
        refine ⟨e :: x :: A'', B', ?_, ?_, ?_⟩
        · rw [hpm', List.cons_append, List.cons_append, ← hxs]
        · intro y hy
          rw [hpm']
          have hea : e.score < (pickMax e xs).score := by
            have := hstrict a (List.mem_cons_self a A'')
            rw [← ha] at this
            exact this
          rcases List.mem_cons.mp hy with h1 | h2
          · subst h1; exact hea
          rcases List.mem_cons.mp h2 with h3 | h4
          · subst h3; exact lt_of_le_of_lt (le_of_not_lt hc) hea
          · exact hstrict y (List.mem_cons_of_mem a h4)
        · intro y hy
          rw [hpm']
          rcases List.mem_cons.mp hy with h1 | h2
          · subst h1; exact hle _ (List.mem_cons_self _ _)
          rcases List.mem_cons.mp h2 with h3 | h4
          · subst h3
            exact le_trans (le_of_not_lt hc) (hle e (List.mem_cons_self e xs))
          · exact hle y (List.mem_cons_of_mem e h4)

/-- Splitting a `filterMap` image splits the source list. -/
theorem filterMap_split {α β : Type} (f : α → Option β) :
    ∀ (L : List α) (A B : List β) (b : β), L.filterMap f = A ++ b :: B →
      ∃ LA p LB, L = LA ++ p :: LB ∧ f p = some b ∧
        LA.filterMap f = A ∧ LB.filterMap f = B := by
  intro L
  induction L with
  | nil =>
    intro A B b h
    simp only [List.filterMap_nil] at h
    exact absurd h.symm (List.append_ne_nil_of_right_ne_nil A (by simp))
  | cons x L' ih =>
    intro A B b h
    rw [List.filterMap_cons] at h
    cases hfx : f x with
    | none =>
      rw [hfx] at h
      obtain ⟨LA, p, LB, hL, hp, hA, hB⟩ := ih A B b h
      exact ⟨x :: LA, p, LB, by rw [hL, List.cons_append], hp,
        by rw [List.filterMap_cons, hfx]; exact hA, hB⟩
    | some y =>
      rw [hfx] at h
      cases A with
      | nil =>
        simp only [List.nil_append] at h
        injection h with h1 h2
        exact ⟨[], x, L', rfl, by rw [hfx, h1], rfl, h2⟩
      | cons a A' =>
        rw [List.cons_append] at h
        injection h with h1 h2
        obtain ⟨LA, p, LB, hL, hp, hA, hB⟩ := ih A' B b h2
        exact ⟨x :: LA, p, LB, by rw [hL, List.cons_append], hp,
          by rw [List.filterMap_cons, hfx, hA, h1], hB⟩

/-- C1: for every utterance, classify scores each intent other than "general"
as (matched lexicon keywords, by substring, in the lower-cased utterance)
divided by the lexicon size, keeps only positive scores, and: if no intent
qualifies it returns the fixed "general"/0.5 fallback with empty entities and
parameters; otherwise it returns the first intent attaining the maximum score
(every earlier intent scores strictly less), with confidence
min(score * 2, 1) and the matched keywords in parameters.matched_keywords. -/
theorem c1_classifier (m : String) (conv : Conversation) :
    ((∀ n ∈ intent_keywords.map Prod.fst, intentScore m n = 0) →
      detect_intent m conv = ⟨"general", 1/2, [], []⟩) ∧
    ((∃ n ∈ intent_keywords.map Prod.fst, intentScore m n ≠ 0) →
      ∃ best l1 l2, intent_keywords.map Prod.fst = l1 ++ best :: l2 ∧
        0 < intentScore m best ∧
        (∀ n ∈ intent_keywords.map Prod.fst, intentScore m n ≤ intentScore m best) ∧
        (∀ n ∈ l1, intentScore m n < intentScore m best) ∧
        (detect_intent m conv).intent = best ∧
        (detect_intent m conv).confidence = min (intentScore m best * 2) 1 ∧
        (detect_intent m conv).parameters = [("matched_keywords", intentMatched m best)]) := by
  have h12 : (mkRat 1 2 : ℚ) = 1/2 := by rw [Rat.mkRat_eq_div]; norm_num
  have hkw : ∀ p ∈ intent_keywords, keywordsOf p.1 = p.2 := by decide
  have hne : ∀ p ∈ intent_keywords, p.2.length ≠ 0 := by decide
  have hscore : ∀ p ∈ intent_keywords, intentScore m p.1
      = ((p.2.filter (fun kw => containsS kw (pyLower m))).length : ℚ)
          / ((p.2.length : ℚ)) := by
    intro p hp
    rw [intentScore, intentMatched, hkw p hp]
  have hIS : intentScores m = intent_keywords.filterMap (fun p =>
      if (p.2.filter (fun kw => containsS kw (pyLower m))).length > 0 then
        some ⟨p.1, pyDiv (p.2.filter (fun kw => containsS kw (pyLower m))).length p.2.length,
              p.2.filter (fun kw => containsS kw (pyLower m))⟩
      else none) := rfl
  have hnone : ∀ p ∈ intent_keywords,
      (fun p : String × List String =>
        if (p.2.filter (fun kw => containsS kw (pyLower m))).length > 0 then
          some (⟨p.1, pyDiv (p.2.filter (fun kw => containsS kw (pyLower m))).length p.2.length,
                p.2.filter (fun kw => containsS kw (pyLower m))⟩ : IntentScore)
        else none) p = none → intentScore m p.1 = 0 := by
    intro p hp hf
    dsimp only at hf
    by_cases hl : (p.2.filter (fun kw => containsS kw (pyLower m))).length > 0
    · rw [if_pos hl] at hf; exact absurd hf (by simp)
    · rw [hscore p hp]
      have : (p.2.filter (fun kw => containsS kw (pyLower m))).length = 0 := by omega
      rw [this]
      simp
  have hsome : ∀ p ∈ intent_keywords, ∀ y,
      (fun p : String × List String =>
        if (p.2.filter (fun kw => containsS kw (pyLower m))).length > 0 then
          some (⟨p.1, pyDiv (p.2.filter (fun kw => containsS kw (pyLower m))).length p.2.length,
                p.2.filter (fun kw => containsS kw (pyLower m))⟩ : IntentScore)
        else none) p = some y →
      y.name = p.1 ∧ y.score = intentScore m p.1 ∧ y.keywords = intentMatched m p.1 ∧
        0 < intentScore m p.1 := by
    intro p hp y hf
    dsimp only at hf
    by_cases hl : (p.2.filter (fun kw => containsS kw (pyLower m))).length > 0
    · rw [if_pos hl] at hf
      injection hf with hf
      subst hf
      refine ⟨rfl, ?_, ?_, ?_⟩
      · rw [pyDiv_eq_div, hscore p hp]
      · rw [intentMatched, hkw p hp]
      · rw [hscore p hp]
        apply div_pos
        · exact_mod_cast hl
        · have := hne p hp
          have : 0 < p.2.length := Nat.pos_of_ne_zero this
          exact_mod_cast this
    · rw [if_neg hl] at hf
      exact absurd hf (by simp)
  constructor
  · intro hall
    have hnil : intentScores m = [] := by
      rw [hIS, List.filterMap_eq_nil_iff]
      intro p hp
      rw [if_neg]
      intro hpos
      have hs0 := hall p.1 (List.mem_map.mpr ⟨p, hp, rfl⟩)
      rw [hscore p hp, div_eq_zero_iff] at hs0
      rcases hs0 with h1 | h2
      · rw [Nat.cast_eq_zero] at h1; omega
      · rw [Nat.cast_eq_zero] at h2; exact (hne p hp) h2
    rw [detect_intent, hnil]
    dsimp only
    rw [h12]
  · rintro ⟨n0, hn0mem, hn0⟩
    cases hs : intentScores m with
    | nil =>
      exfalso
      rw [hIS, List.filterMap_eq_nil_iff] at hs
      obtain ⟨p, hp, hp1⟩ := List.mem_map.mp hn0mem
      exact hn0 (hp1 ▸ hnone p hp (hs p hp))
    | cons e es =>
      obtain ⟨A, B, hsplit, hstrict, hle⟩ := pickMax_split es e
      have hFM : intent_keywords.filterMap (fun p : String × List String =>
          if (p.2.filter (fun kw => containsS kw (pyLower m))).length > 0 then
            some (⟨p.1, pyDiv (p.2.filter (fun kw => containsS kw (pyLower m))).length p.2.length,
                  p.2.filter (fun kw => containsS kw (pyLower m))⟩ : IntentScore)
          else none) = A ++ pickMax e es :: B := by
        rw [← hIS, hs, hsplit]
      obtain ⟨LA, p, LB, hL, hfp, hA, hB⟩ := filterMap_split _ intent_keywords A B _ hFM
      have hpmem : p ∈ intent_keywords := by
        rw [hL]
        exact List.mem_append_right LA (List.mem_cons_self p LB)
      obtain ⟨hname, hscoreq, hkeys, hpos⟩ := hsome p hpmem _ hfp
      refine ⟨p.1, LA.map Prod.fst, LB.map Prod.fst, ?_, hpos, ?_, ?_, ?_, ?_, ?_⟩
      · rw [hL, List.map_append, List.map_cons]
      · intro n hn
        obtain ⟨q, hq, hq1⟩ := List.mem_map.mp hn
        subst hq1
        cases hfq : (fun p : String × List String =>
            if (p.2.filter (fun kw => containsS kw (pyLower m))).length > 0 then
              some (⟨p.1, pyDiv (p.2.filter (fun kw => containsS kw (pyLower m))).length
                      p.2.length,
                    p.2.filter (fun kw => containsS kw (pyLower m))⟩ : IntentScore)
            else none) q with
        | none =>
          rw [hnone q hq hfq]
          rw [← hscoreq]
          exact le_of_lt (hscoreq ▸ hpos)
        | some y =>
          obtain ⟨hyn, hys, _, _⟩ := hsome q hq y hfq
          have hymem : y ∈ intentScores m := by
            rw [hIS]
            exact List.mem_filterMap.mpr ⟨q, hq, hfq⟩
          rw [hs] at hymem
          have := hle y hymem
          rw [hys, hscoreq] at this
          exact this
      · intro n hn
        obtain ⟨q, hq, hq1⟩ := List.mem_map.mp hn
        subst hq1
        have hqmem : q ∈ intent_keywords := by
          rw [hL]
          exact List.mem_append_left _ hq
        cases hfq : (fun p : String × List String =>
            if (p.2.filter (fun kw => containsS kw (pyLower m))).length > 0 then
              some (⟨p.1, pyDiv (p.2.filter (fun kw => containsS kw (pyLower m))).length
                      p.2.length,
                    p.2.filter (fun kw => containsS kw (pyLower m))⟩ : IntentScore)
            else none) q with
        | none =>
          rw [hnone q hqmem hfq, ← hscoreq]
          exact hscoreq ▸ hpos
        | some y =>
          obtain ⟨hyn, hys, _, _⟩ := hsome q hqmem y hfq
          have hymem : y ∈ A := by
            rw [← hA]
            exact List.mem_filterMap.mpr ⟨q, hq, hfq⟩
          have := hstrict y hymem
          rw [hys, hscoreq] at this
          exact this
      · rw [detect_intent, hs]
        dsimp only
        rw [hname]
      · rw [detect_intent, hs]
        dsimp only
        rw [pyMin_eq_min, pyDouble_eq, hscoreq]
      · rw [detect_intent, hs]
        dsimp only
        rw [hkeys]

/-- C1 witness: the empty utterance scores zero everywhere and falls back to
"general"/0.5; "hello" scores positively (greeting) and the first-maximum
characterisation holds for it. -/
theorem c1_classifier_witness :
    detect_intent "" conv0 = ⟨"general", 1/2, [], []⟩ ∧
    (∃ best l1 l2, intent_keywords.map Prod.fst = l1 ++ best :: l2 ∧
        0 < intentScore "hello" best ∧
        (∀ n ∈ intent_keywords.map Prod.fst,
          intentScore "hello" n ≤ intentScore "hello" best) ∧
        (∀ n ∈ l1, intentScore "hello" n < intentScore "hello" best) ∧
        (detect_intent "hello" conv0).intent = best ∧
        (detect_intent "hello" conv0).confidence
            = min (intentScore "hello" best * 2) 1 ∧
        (detect_intent "hello" conv0).parameters
            = [("matched_keywords", intentMatched "hello" best)]) := by
  constructor
  · refine (c1_classifier "" conv0).1 ?_
    intro n hn
    simp only [intent_keywords, List.map_cons, List.map_nil, List.mem_cons,
      List.not_mem_nil, or_false] at hn
    rcases hn with h|h|h|h|h|h|h <;> subst h <;>
      rw [intentScore, show intentMatched "" _ = [] from by decide] <;> simp
  · refine (c1_classifier "hello" conv0).2 ?_
    refine ⟨"greeting", by decide, ?_⟩
    rw [intentScore, show intentMatched "hello" "greeting" = ["hello"] from by decide,
      show keywordsOf "greeting" = greeting_keywords from by decide]
    norm_num [greeting_keywords]

/-- A key none of the entries carries looks up to `none`. -/
theorem lookup_none_of_forall (k : String) :
    ∀ (l : List (String × Conversation)), (∀ p ∈ l, p.1 ≠ k) → l.lookup k = none := by
  intro l
  induction l with
  | nil => intro _; rfl
  | cons x xs ih =>
    intro h
    cases x with
    | mk a b =>
      have hx : (k == a) = false := by
        simp only [beq_eq_false_iff_ne, ne_eq]
        intro he
        exact (h (a, b) (List.mem_cons_self _ _)) he.symm
      simp only [List.lookup]
      rw [hx]
      exact ih (fun p hp => h p (List.mem_cons_of_mem _ hp))

/-- The head of the stable sort is a member carrying a minimal key. -/
theorem sortHead_min (l : List (String × Conversation)) (h : String × Conversation)
    (t : List (String × Conversation))
    (hsort : List.insertionSort leUpd l = h :: t) :
    h ∈ l ∧ ∀ p ∈ l, h.2.updated_at ≤ p.2.updated_at := by
  have hperm := List.perm_insertionSort leUpd l
  rw [hsort] at hperm
  constructor
  · exact hperm.subset (List.mem_cons_self h t)
  · intro p hp
    have hps : p ∈ h :: t := (hperm.mem_iff).mpr hp
    have hsorted := List.sorted_insertionSort leUpd l
    rw [hsort] at hsorted
    rcases List.mem_cons.mp hps with h1 | h2
    · rw [h1]
    · exact (List.sorted_cons.mp hsorted).1 p h2

/-- With nodup keys, filtering out one member's key removes exactly that
member, preserving the order of the rest. -/
theorem filter_out_one (h : String × Conversation) :
    ∀ (l : List (String × Conversation)), h ∈ l → (l.map Prod.fst).Nodup →
      ∃ u v, l = u ++ h :: v ∧ l.filter (fun p => !(h.1 == p.1)) = u ++ v := by
  intro l hm hnd
  obtain ⟨u, v, rfl⟩ := List.append_of_mem hm
  refine ⟨u, v, rfl, ?_⟩
  rw [List.map_append, List.map_cons] at hnd
  rw [List.nodup_append] at hnd
  obtain ⟨hu, hcons, hdisj⟩ := hnd
  have hnu : ∀ p ∈ u, p.1 ≠ h.1 := by
    intro p hp he
    exact hdisj (he ▸ List.mem_map.mpr ⟨p, hp, rfl⟩) (List.mem_cons_self _ _)
  have hnv : ∀ p ∈ v, p.1 ≠ h.1 := by
    intro p hp he
    have := (List.nodup_cons.mp hcons).1
    exact this (he ▸ List.mem_map.mpr ⟨p, hp, rfl⟩)
  rw [List.filter_append, List.filter_cons, if_neg (by simp)]
  congr 1
  · rw [List.filter_eq_self]
    intro p hp
    simp only [Bool.not_eq_true']
    simp only [beq_eq_false_iff_ne, ne_eq]
    exact fun he => (hnu p hp) he.symm
  · rw [List.filter_eq_self]
    intro p hp
    simp only [Bool.not_eq_true']
    simp only [beq_eq_false_iff_ne, ne_eq]
    exact fun he => (hnv p hp) he.symm

/-- When the requested id does not resolve, `get_or_create_conversation` takes
the creation branch: register the fresh conversation and evict beyond ten. -/
theorem goc_create (convs : List (String × Conversation)) (cid : Option String)
    (prefs : List (String × String)) (freshId : String) (now : Nat)
    (hfresh : ∀ p ∈ convs, p.1 ≠ freshId)
    (hexist : (match cid with
               | some i => if i = "" then none else convs.lookup i
               | none => none) = (none : Option Conversation)) :
    get_or_create_conversation convs cid prefs freshId now
      = (⟨freshId, [], now, now, [], prefs⟩,
         if (convs ++ [(freshId, (⟨freshId, [], now, now, [], prefs⟩ : Conversation))]).length > 10
         then
           (convs ++ [(freshId, (⟨freshId, [], now, now, [], prefs⟩ : Conversation))]).filter
             (fun p =>
               !(((List.insertionSort leUpd
                     (convs ++ [(freshId, (⟨freshId, [], now, now, [], prefs⟩ : Conversation))])).take
                   ((convs ++ [(freshId, (⟨freshId, [], now, now, [], prefs⟩ : Conversation))]).length
                     - 10)).any
                 (fun q => q.1 == p.1)))
         else convs ++ [(freshId, (⟨freshId, [], now, now, [], prefs⟩ : Conversation))]) := by
  have hins : dictInsert convs freshId (⟨freshId, [], now, now, [], prefs⟩ : Conversation)
      = convs ++ [(freshId, (⟨freshId, [], now, now, [], prefs⟩ : Conversation))] := by
    rw [dictInsert, if_neg]
    rw [lookup_none_of_forall freshId convs hfresh]
    simp
  rw [get_or_create_conversation.eq_def]
  dsimp only
  rw [hexist]
  dsimp only
  simp only [hins]

/-- Evicting from an eleven-entry store (ten old entries, all updated before
the fresh one) removes exactly one minimal old entry and keeps the fresh
one. -/
theorem evict_helper (convs : List (String × Conversation)) (x : String × Conversation)
    (hnodup : (convs.map Prod.fst).Nodup)
    (hfresh : ∀ p ∈ convs, p.1 ≠ x.1)
    (hlt : ∀ p ∈ convs, p.2.updated_at < x.2.updated_at)
    (h10 : convs.length = 10) :
    ∃ m, m ∈ convs ∧ (∀ p ∈ convs, m.2.updated_at ≤ p.2.updated_at) ∧
      ((convs ++ [x]).filter (fun p =>
          !(((List.insertionSort leUpd (convs ++ [x])).take ((convs ++ [x]).length - 10)).any
            (fun q => q.1 == p.1))))
        = convs.filter (fun p => !(m.1 == p.1)) ++ [x] ∧
      ((convs ++ [x]).filter (fun p =>
          !(((List.insertionSort leUpd (convs ++ [x])).take ((convs ++ [x]).length - 10)).any
            (fun q => q.1 == p.1)))).length = 10 := by
  have hlen11 : (convs ++ [x]).length = 11 := by simp [h10]
  cases hsort : List.insertionSort leUpd (convs ++ [x]) with
  | nil =>
    exfalso
    have hperm := List.perm_insertionSort leUpd (convs ++ [x])
    rw [hsort] at hperm
    have := hperm.length_eq
    rw [hlen11] at this
    simp at this
  | cons h t =>
    have htake : List.take ((convs ++ [x]).length - 10) (h :: t) = [h] := by
      rw [hlen11]
      show List.take 1 (h :: t) = [h]
      rfl
    simp only [htake, List.any_cons, List.any_nil, Bool.or_false]
    obtain ⟨hmem, hmin⟩ := sortHead_min _ h t hsort
    have hh : h ∈ convs := by
      rcases List.mem_append.mp hmem with h1 | h2
      · exact h1
      · exfalso
        rw [List.mem_singleton.mp h2] at hmin
        have hne : convs ≠ [] := by
          intro he
          rw [he] at h10
          simp at h10
        obtain ⟨p0, hp0⟩ := List.exists_mem_of_ne_nil convs hne
        have h1 := hmin p0 (List.mem_append_left _ hp0)
        have h2 := hlt p0 hp0
        omega
    have hminc : ∀ p ∈ convs, h.2.updated_at ≤ p.2.updated_at :=
      fun p hp => hmin p (List.mem_append_left _ hp)
    obtain ⟨u, v, hluv, hfilter⟩ := filter_out_one h convs hh hnodup
    have hx1 : (h.1 == x.1) = false := by
      simp only [beq_eq_false_iff_ne, ne_eq]
      exact hfresh h hh
    have hfull : (convs ++ [x]).filter (fun p => !(h.1 == p.1))
        = convs.filter (fun p => !(h.1 == p.1)) ++ [x] := by
      rw [List.filter_append]
      congr 1
      simp [List.filter, hx1]
    refine ⟨h, hh, hminc, hfull, ?_⟩
    rw [hfull, hfilter]
    have hlu := congrArg List.length hluv
    simp only [List.length_append, List.length_cons] at hlu
    simp only [List.length_append, List.length_cons, List.length_nil]
    omega


/-- C5: under the store invariants (at most ten conversations, distinct ids,
fresh uuid, strictly increasing clock), the store holds at most ten
conversations after every `getOrCreate`; and when creating an eleventh
conversation, exactly one least-recently-updated conversation is evicted,
leaving exactly ten, the newly created one included, in store order. -/
theorem c5_store_eviction (convs : List (String × Conversation)) (cid : Option String)
    (prefs : List (String × String)) (freshId : String) (now : Nat)
    (hnodup : (convs.map Prod.fst).Nodup)
    (hfresh : ∀ p ∈ convs, p.1 ≠ freshId)
    (hlt : ∀ p ∈ convs, p.2.updated_at < now)
    (hlen : convs.length ≤ 10) :
    (get_or_create_conversation convs cid prefs freshId now).2.length ≤ 10 ∧
    (convs.length = 10 → cid = none →
      ∃ m, m ∈ convs ∧ (∀ p ∈ convs, m.2.updated_at ≤ p.2.updated_at) ∧
        (get_or_create_conversation convs cid prefs freshId now).2
          = convs.filter (fun p => !(m.1 == p.1))
              ++ [(freshId, (⟨freshId, [], now, now, [], prefs⟩ : Conversation))] ∧
        (get_or_create_conversation convs cid prefs freshId now).2.length = 10 ∧
        (freshId, (⟨freshId, [], now, now, [], prefs⟩ : Conversation))
            ∈ (get_or_create_conversation convs cid prefs freshId now).2) := by
  constructor
  · cases hex : (match cid with
        | some i => if i = "" then none else convs.lookup i
        | none => none : Option Conversation) with
    | some c =>
      have hres : get_or_create_conversation convs cid prefs freshId now = (c, convs) := by
        rw [get_or_create_conversation.eq_def]
        dsimp only
        rw [hex]
      rw [hres]
      exact hlen
    | none =>
      rw [goc_create convs cid prefs freshId now hfresh hex]
      by_cases hgt :
          (convs ++ [(freshId, (⟨freshId, [], now, now, [], prefs⟩ : Conversation))]).length > 10
      · rw [if_pos hgt]
        have h10 : convs.length = 10 := by
          simp only [List.length_append, List.length_cons, List.length_nil] at hgt
          omega
        obtain ⟨m, _, _, _, hlen10⟩ := evict_helper convs
          (freshId, (⟨freshId, [], now, now, [], prefs⟩ : Conversation)) hnodup
          hfresh hlt h10
        rw [hlen10]
      · rw [if_neg hgt]
        simp only [List.length_append, List.length_cons, List.length_nil] at hgt ⊢
        omega
  · intro h10 hcid
    subst hcid
    rw [goc_create convs none prefs freshId now hfresh rfl]
    have h11 :
        (convs ++ [(freshId, (⟨freshId, [], now, now, [], prefs⟩ : Conversation))]).length
          > 10 := by
      simp [h10]
    rw [if_pos h11]
    obtain ⟨m, hm1, hm2, heq, hlen10⟩ := evict_helper convs
      (freshId, (⟨freshId, [], now, now, [], prefs⟩ : Conversation)) hnodup hfresh hlt h10
    refine ⟨m, hm1, hm2, heq, hlen10, ?_⟩
    rw [heq]
    exact List.mem_append_right _ (List.mem_singleton.mpr rfl)

/-- C5 witness: creating an eleventh conversation in a full ten-conversation
store with distinct ids and increasing update times. -/
theorem c5_store_eviction_witness :
    (get_or_create_conversation store10 none [] "fresh" 99).2.length ≤ 10 ∧
    (∃ m, m ∈ store10 ∧ (∀ p ∈ store10, m.2.updated_at ≤ p.2.updated_at) ∧
      (get_or_create_conversation store10 none [] "fresh" 99).2
        = store10.filter (fun p => !(m.1 == p.1))
            ++ [("fresh", (⟨"fresh", [], 99, 99, [], []⟩ : Conversation))] ∧
      (get_or_create_conversation store10 none [] "fresh" 99).2.length = 10 ∧
      ("fresh", (⟨"fresh", [], 99, 99, [], []⟩ : Conversation))
          ∈ (get_or_create_conversation store10 none [] "fresh" 99).2) :=
  ⟨(c5_store_eviction store10 none [] "fresh" 99 (by decide) (by decide) (by decide)
      (by decide)).1,
   (c5_store_eviction store10 none [] "fresh" 99 (by decide) (by decide) (by decide)
      (by decide)).2 (by decide) rfl⟩

/-- Bigrams of a tail are bigrams of the whole. -/
theorem bigrams_cons_subset (c : Char) (l : List Char) :
    ∀ p ∈ bigrams l, p ∈ bigrams (c :: l) := by
  intro p hp
  cases l with
  | nil => simp [bigrams] at hp
  | cons d rest => exact List.mem_cons_of_mem _ hp

/-- Bigrams of the right part of an append are bigrams of the whole. -/
theorem bigrams_append_right (x y : List Char) :
    ∀ p ∈ bigrams y, p ∈ bigrams (x ++ y) := by
  induction x with
  | nil => intro p hp; simpa using hp
  | cons a x' ih =>
    intro p hp
    rw [List.cons_append]
    exact bigrams_cons_subset a (x' ++ y) p (ih p hp)

/-- Bigrams of the left part of an append are bigrams of the whole. -/
theorem bigrams_append_left (y : List Char) :
    ∀ (x : List Char), ∀ p ∈ bigrams x, p ∈ bigrams (x ++ y) := by
  intro x
  induction x with
  | nil => intro p hp; simp [bigrams] at hp
  | cons a x' ih =>
    intro p hp
    cases x' with
    | nil => simp [bigrams] at hp
    | cons b x'' =>
      rw [List.cons_append]
      rcases List.mem_cons.mp hp with h1 | h2
      · rw [h1, List.cons_append]
        exact List.mem_cons_self _ _
      · exact bigrams_cons_subset a ((b :: x'') ++ y) p (ih p h2)

/-- A bigram of any part of an append decomposes into a bigram of a part or
the boundary pair. -/
theorem bigrams_append (y : List Char) :
    ∀ (x : List Char), ∀ p ∈ bigrams (x ++ y),
      p ∈ bigrams x ∨ p ∈ bigrams y ∨
        (∃ c d, p = (c, d) ∧ x.getLast? = some c ∧ y.head? = some d) := by
  intro x
  induction x with
  | nil => intro p hp; exact Or.inr (Or.inl (by simpa using hp))
  | cons a x' ih =>
    intro p hp
    cases x' with
    | nil =>
      cases y with
      | nil => simp [bigrams] at hp
      | cons d y' =>
        rcases List.mem_cons.mp hp with h1 | h2
        · exact Or.inr (Or.inr ⟨a, d, h1, rfl, rfl⟩)
        · exact Or.inr (Or.inl h2)
    | cons b x'' =>
      rw [List.cons_append] at hp
      rcases List.mem_cons.mp hp with h1 | h2
      · exact Or.inl (h1 ▸ List.mem_cons_self _ _)
      · rcases ih p h2 with h3 | h3 | ⟨c, d, hpd, hlast, hhead⟩
        · exact Or.inl (bigrams_cons_subset a (b :: x'') p h3)
        · exact Or.inr (Or.inl h3)
        · exact Or.inr (Or.inr ⟨c, d, hpd, by rw [List.getLast?_cons_cons]; exact hlast, hhead⟩)

/-- Bigrams of an infix are bigrams of the whole. -/
theorem bigrams_of_middle (a n b : List Char) :
    ∀ p ∈ bigrams n, p ∈ bigrams (a ++ n ++ b) := by
  intro p hp
  rw [List.append_assoc]
  exact bigrams_append_right a (n ++ b) p (bigrams_append_left b n p hp)

/-- A successful `startsL` exhibits the suffix. -/
theorem startsL_split : ∀ (n l : List Char), startsL n l = true → ∃ b, l = n ++ b := by
  intro n
  induction n with
  | nil => intro l _; exact ⟨l, rfl⟩
  | cons c n' ih =>
    intro l h
    cases l with
    | nil => simp [startsL] at h
    | cons d t =>
      simp only [startsL, Bool.and_eq_true, beq_iff_eq] at h
      obtain ⟨b, hb⟩ := ih t h.2
      exact ⟨b, by rw [h.1, hb, List.cons_append]⟩

/-- A successful substring test exhibits the split. -/
theorem containsL_split : ∀ (l n : List Char), containsL n l = true → ∃ a b, l = a ++ n ++ b := by
  intro l
  induction l with
  | nil =>
    intro n h
    simp only [containsL, List.isEmpty_iff] at h
    exact ⟨[], [], by rw [h]; rfl⟩
  | cons c t ih =>
    intro n h
    simp only [containsL, Bool.or_eq_true] at h
    rcases h with h1 | h2
    · obtain ⟨b, hb⟩ := startsL_split n (c :: t) h1
      exact ⟨[], b, by rw [hb]; rfl⟩
    · obtain ⟨a, b, hab⟩ := ih n h2
      exact ⟨c :: a, b, by rw [hab]; rfl⟩

/-- `startsL` holds on an extension of itself. -/
theorem startsL_self_append : ∀ (n b : List Char), startsL n (n ++ b) = true := by
  intro n
  induction n with
  | nil => intro b; rfl
  | cons c n' ih =>
    intro b
    simp only [List.cons_append, startsL, Bool.and_eq_true, beq_iff_eq]
    exact ⟨trivial, ih b⟩

/-- A leading segment is a substring. -/
theorem containsL_of_startsL (n l : List Char) (h : startsL n l = true) :
    containsL n l = true := by
  cases l with
  | nil =>
    cases n with
    | nil => rfl
    | cons c n' => simp [startsL] at h
  | cons c t =>
    simp only [containsL, Bool.or_eq_true]
    exact Or.inl h

/-- The first character of a nonempty join is the first word's. -/
theorem joinWords_head (w : String) (rest : List String) (hw : w.data ≠ []) :
    (joinWords (w :: rest)).data.head? = w.data.head? := by
  cases rest with
  | nil => rfl
  | cons w' rest' =>
    show ((w ++ " ") ++ joinWords (w' :: rest')).data.head? = _
    rw [String.data_append, String.data_append]
    cases hwd : w.data with
    | nil => exact absurd hwd hw
    | cons c cs => rfl

/-- Every bigram of a space-separated sequence of greeting keywords is a
greeting pair. -/
theorem join_bigrams : ∀ (ws : List String), (∀ w ∈ ws, w ∈ greeting_keywords) →
    ∀ p ∈ bigrams (joinWords ws).data, p ∈ greetingPairs := by
  intro ws
  induction ws with
  | nil => intro _ p hp; simp [joinWords, bigrams] at hp
  | cons w rest ih =>
    intro hmem p hp
    have hw : w ∈ greeting_keywords := hmem w (List.mem_cons_self _ _)
    cases rest with
    | nil =>
      exact List.mem_append.mpr (Or.inl (List.mem_append.mpr (Or.inl
        (List.mem_flatten.mpr ⟨_, List.mem_map.mpr ⟨w, hw, rfl⟩, hp⟩))))
    | cons w' rest' =>
      have hw' : w' ∈ greeting_keywords :=
        hmem w' (List.mem_cons_of_mem _ (List.mem_cons_self _ _))
      have hallne : ∀ v ∈ greeting_keywords, v.data ≠ [] := by decide
      have hw'ne : w'.data ≠ [] := hallne w' hw'
      have hdata : (joinWords (w :: w' :: rest')).data
          = w.data ++ (' ' :: (joinWords (w' :: rest')).data) := by
        show ((w ++ " ") ++ joinWords (w' :: rest')).data = _
        rw [String.data_append, String.data_append, List.append_assoc]
        rfl
      rw [hdata] at hp
      rcases bigrams_append (' ' :: (joinWords (w' :: rest')).data) w.data p hp with
        h1 | h2 | ⟨c, d, hpd, hlast, hhead⟩
      · exact List.mem_append.mpr (Or.inl (List.mem_append.mpr (Or.inl
          (List.mem_flatten.mpr ⟨_, List.mem_map.mpr ⟨w, hw, rfl⟩, h1⟩))))
      · cases hJ : (joinWords (w' :: rest')).data with
        | nil => rw [hJ] at h2; simp [bigrams] at h2
        | cons d J' =>
          rw [hJ] at h2
          rcases List.mem_cons.mp h2 with h3 | h4
          · have hjh := joinWords_head w' rest' hw'ne
            rw [hJ] at hjh
            refine List.mem_append.mpr (Or.inr (List.mem_filterMap.mpr ⟨w', hw', ?_⟩))
            rw [← hjh, h3]
            rfl
          · rw [← hJ] at h4
            exact ih (fun v hv => hmem v (List.mem_cons_of_mem _ hv)) p h4
      · have hd : d = ' ' := by
          simp only [List.head?_cons, Option.some.injEq] at hhead
          exact hhead.symm
        refine List.mem_append.mpr (Or.inl (List.mem_append.mpr (Or.inr
          (List.mem_filterMap.mpr ⟨w, hw, ?_⟩))))
        rw [hlast, hpd, hd]
        rfl

/-- `str.lower` distributes over concatenation. -/
theorem pyLower_append (a b : String) : pyLower (a ++ b) = pyLower a ++ pyLower b := by
  show String.mk ((a ++ b).data.map pyLowerChar) = _
  rw [String.data_append, List.map_append]
  rfl

/-- A join of greeting keywords is already lower-case. -/
theorem pyLower_join (ws : List String) (h : ∀ w ∈ ws, w ∈ greeting_keywords) :
    pyLower (joinWords ws) = joinWords ws := by
  induction ws with
  | nil => rfl
  | cons w rest ih =>
    have hlw : ∀ v ∈ greeting_keywords, pyLower v = v := by decide
    have hw : pyLower w = w := hlw w (h w (List.mem_cons_self _ _))
    cases rest with
    | nil => exact hw
    | cons w' rest' =>
      show pyLower ((w ++ " ") ++ joinWords (w' :: rest')) = _
      rw [pyLower_append, pyLower_append, hw,
        ih (fun v hv => h v (List.mem_cons_of_mem _ hv))]
      rfl

/-- C9: every utterance consisting only of greeting-lexicon keywords
(space-separated) classifies as "greeting" with confidence strictly greater
than zero: no keyword of any other lexicon can occur as a substring of such
an utterance (every foreign keyword contains an adjacent character pair that
greeting joins never produce), while the leading greeting keyword always
matches. -/
theorem c9_greeting (ws : List String) (conv : Conversation)
    (hne : ws ≠ []) (hmem : ∀ w ∈ ws, w ∈ greeting_keywords) :
    (detect_intent (joinWords ws) conv).intent = "greeting" ∧
    0 < (detect_intent (joinWords ws) conv).confidence := by
  have hforeign : ∀ kw ∈ foreign_keywords, ∃ p ∈ bigrams kw.data, p ∉ greetingPairs := by
    decide
  have hlow : pyLower (joinWords ws) = joinWords ws := pyLower_join ws hmem
  have hnocc : ∀ kw ∈ foreign_keywords, containsS kw (pyLower (joinWords ws)) = false := by
    intro kw hkw
    rw [hlow]
    by_contra hcc
    simp only [Bool.not_eq_false] at hcc
    obtain ⟨a, b, hab⟩ := containsL_split (joinWords ws).data kw.data hcc
    obtain ⟨p, hp, hpn⟩ := hforeign kw hkw
    apply hpn
    apply join_bigrams ws hmem
    rw [hab]
    exact bigrams_of_middle a kw.data b p hp
  obtain ⟨w0, rest, rfl⟩ : ∃ w0 rest, ws = w0 :: rest := by
    cases ws with
    | nil => exact absurd rfl hne
    | cons a l => exact ⟨a, l, rfl⟩
  have hw0 : w0 ∈ greeting_keywords := hmem w0 (List.mem_cons_self _ _)
  have hw0in : containsS w0 (pyLower (joinWords (w0 :: rest))) = true := by
    rw [hlow]
    apply containsL_of_startsL
    cases rest with
    | nil =>
      have := startsL_self_append w0.data []
      rw [List.append_nil] at this
      exact this
    | cons w' rest' =>
      show startsL w0.data ((w0 ++ " ") ++ joinWords (w' :: rest')).data = true
      rw [String.data_append, String.data_append, List.append_assoc]
      exact startsL_self_append w0.data _
  have hfoo : ∀ (lex : List String), (∀ kw ∈ lex, kw ∈ foreign_keywords) →
      lex.filter (fun kw => containsS kw (pyLower (joinWords (w0 :: rest)))) = [] := by
    intro lex hsub
    rw [List.filter_eq_nil_iff]
    intro kw hkw
    rw [hnocc kw (hsub kw hkw)]
    simp
  have hw1 := hfoo weather_intent_keywords (by decide)
  have hn1 := hfoo news_intent_keywords (by decide)
  have hc1 := hfoo calendar_intent_keywords (by decide)
  have hgb1 := hfoo goodbye_keywords (by decide)
  have hhp1 := hfoo help_keywords (by decide)
  have htk1 := hfoo thanks_keywords (by decide)
  have hg : w0 ∈ greeting_keywords.filter
      (fun kw => containsS kw (pyLower (joinWords (w0 :: rest)))) :=
    List.mem_filter.mpr ⟨hw0, hw0in⟩
  have hglen : (greeting_keywords.filter
      (fun kw => containsS kw (pyLower (joinWords (w0 :: rest))))).length > 0 :=
    List.length_pos.mpr (List.ne_nil_of_mem hg)
  have hIS : intentScores (joinWords (w0 :: rest)) =
      [⟨"greeting",
        pyDiv (greeting_keywords.filter
          (fun kw => containsS kw (pyLower (joinWords (w0 :: rest))))).length
          greeting_keywords.length,
        greeting_keywords.filter
          (fun kw => containsS kw (pyLower (joinWords (w0 :: rest))))⟩] := by
    rw [intentScores]
    dsimp only
    rw [intent_keywords]
    simp only [List.filterMap_cons, List.filterMap_nil]
    rw [hw1, hn1, hc1, hgb1, hhp1, htk1]
    simp only [List.length_nil, gt_iff_lt, lt_self_iff_false, if_false]
    rw [if_pos hglen]
  rw [detect_intent, hIS]
  dsimp only
  constructor
  · rfl
  · show 0 < pyMin (pyDouble (pyDiv _ _)) 1
    rw [pyMin_eq_min, pyDouble_eq, pyDiv_eq_div]
    apply lt_min
    · apply mul_pos
      · apply div_pos
        · exact_mod_cast hglen
        · norm_num [greeting_keywords]
      · norm_num
    · norm_num

/-- C9 witness: the utterance "hey good morning" (a join of two greeting
keywords). -/
theorem c9_greeting_witness :
    (detect_intent (joinWords ["hey", "good morning"]) conv0).intent = "greeting" ∧
    0 < (detect_intent (joinWords ["hey", "good morning"]) conv0).confidence :=
  c9_greeting ["hey", "good morning"] conv0 (by decide) (by decide)
